import Mathlib

/-!
Verification of the configuration-profile subsystem of the repository:
the config builder and legacy converter (`ConfigBuilder.build`,
`ConfigBuilder.convert`, `ConfigBuilder.hoistTemplateProperties`,
`ConfigBuilder.convertPropNames`, `ConfigBuilder.getDefaultValue`)
and the auth command handler (`BaseAuthHandler.processLogin`,
`BaseAuthHandler.processLogout`).

JavaScript objects are modelled as association lists carrying the
object-update semantics (an existing key keeps its position and gets the
new value, a new key is appended at the end).  JavaScript property values
are modelled by the inductive `JVal`; the modelled code only ever
constructs the empty aggregate values, so aggregates are carried as the
two opaque constants `vEmptyArr` and `vEmptyObj`.  Equality on `JVal` is
structural, which coincides with the JavaScript `Set` membership
(SameValueZero) on the primitive values this model ranges over.
-/

/-- Model of a JavaScript/JSON property value. -/
inductive JVal where
  | vStr (s : String)
  | vNum (n : Int)
  | vBool (b : Bool)
  | vNull
  | vEmptyArr
  | vEmptyObj
deriving DecidableEq, Repr

namespace AList0

/-- Lookup in a JavaScript-object-as-association-list (`obj[k]`). -/
def alookup (m : List (String × α)) (k : String) : Option α :=
  match m with
  | [] => none
  | (k', v) :: rest => if k' = k then some v else alookup rest k

/-- JavaScript object assignment `obj[k] = v`: an existing key keeps its
position and its value is replaced; a fresh key is appended at the end. -/
def aset (m : List (String × α)) (k : String) (v : α) : List (String × α) :=
  match m with
  | [] => [(k, v)]
  | (k', v') :: rest => if k' = k then (k, v) :: rest else (k', v') :: aset rest k v

/-- JavaScript `delete obj[k]`. -/
def adel (m : List (String × α)) (k : String) : List (String × α) :=
  match m with
  | [] => []
  | (k', v) :: rest => if k' = k then adel rest k else (k', v) :: adel rest k

/-- The keys of a JavaScript object, in order. -/
def akeys (m : List (String × α)) : List String :=
  m.map Prod.fst

theorem alookup_aset_self (m : List (String × α)) (k : String) (v : α) :
    alookup (aset m k v) k = some v := by
  induction m with
  | nil => simp [aset, alookup]
  | cons e rest ih =>
    obtain ⟨k', v'⟩ := e
    by_cases h : k' = k <;> simp [aset, alookup, h, ih]

theorem alookup_aset_ne (m : List (String × α)) {k k' : String} (v : α) (h : k' ≠ k) :
    alookup (aset m k v) k' = alookup m k' := by
  induction m with
  | nil => simp [aset, alookup, Ne.symm h]
  | cons e rest ih =>
    obtain ⟨k0, v0⟩ := e
    by_cases h0 : k0 = k
    · subst h0
      simp [aset, alookup, Ne.symm h]
    · simp [aset, alookup, h0, ih]

theorem alookup_adel_self (m : List (String × α)) (k : String) :
    alookup (adel m k) k = none := by
  induction m with
  | nil => simp [adel, alookup]
  | cons e rest ih =>
    obtain ⟨k', v⟩ := e
    by_cases h : k' = k <;> simp [adel, alookup, h, ih]

theorem alookup_adel_ne (m : List (String × α)) {k k' : String} (h : k' ≠ k) :
    alookup (adel m k) k' = alookup m k' := by
  induction m with
  | nil => simp [adel, alookup]
  | cons e rest ih =>
    obtain ⟨k0, v⟩ := e
    by_cases h0 : k0 = k
    · subst h0
      simp [adel, alookup, Ne.symm h, ih]
    · simp [adel, alookup, h0, ih]

theorem mem_akeys_iff (m : List (String × α)) (k : String) :
    k ∈ akeys m ↔ (alookup m k).isSome := by
  induction m with
  | nil => simp [akeys, alookup]
  | cons e rest ih =>
    obtain ⟨k', v⟩ := e
    by_cases h : k' = k
    · subst h
      simp [akeys, alookup]
    · simp only [akeys, List.map_cons, List.mem_cons, alookup, h, if_neg h]
      rw [← akeys, ih]
      constructor
      · rintro (hh | hh)
        · exact absurd hh.symm h
        · exact hh
      · intro hh
        exact Or.inr hh

theorem alookup_eq_some_of_mem_akeys {m : List (String × α)} {k : String}
    (h : k ∈ akeys m) : ∃ v, alookup m k = some v := by
  rw [mem_akeys_iff] at h
  exact Option.isSome_iff_exists.mp h

theorem not_mem_akeys_iff (m : List (String × α)) (k : String) :
    k ∉ akeys m ↔ alookup m k = none := by
  rw [mem_akeys_iff, Option.isSome_iff_exists]
  constructor
  · intro h
    cases hh : alookup m k with
    | none => rfl
    | some v => exact absurd ⟨v, hh⟩ h
  · rintro h ⟨v, hv⟩
    rw [h] at hv
    exact Option.noConfusion hv

theorem mem_of_alookup_eq_some {m : List (String × α)} {k : String} {v : α}
    (h : alookup m k = some v) : (k, v) ∈ m := by
  induction m with
  | nil => simp [alookup] at h
  | cons e rest ih =>
    obtain ⟨k', v'⟩ := e
    by_cases h0 : k' = k
    · subst h0
      simp [alookup] at h
      simp [h]
    · simp [alookup, h0] at h
      exact List.mem_cons_of_mem _ (ih h)

theorem alookup_eq_some_of_mem_nodup {m : List (String × α)} {k : String} {v : α}
    (hnd : (akeys m).Nodup) (hmem : (k, v) ∈ m) : alookup m k = some v := by
  induction m with
  | nil => simp at hmem
  | cons e rest ih =>
    obtain ⟨k', v'⟩ := e
    simp [akeys] at hnd
    rcases List.mem_cons.mp hmem with h | h
    · obtain ⟨h1, h2⟩ := Prod.mk.inj h
      subst h1; subst h2
      simp [alookup]
    · by_cases h0 : k' = k
      · subst h0
        exact absurd (List.mem_map_of_mem Prod.fst h) (by simpa [akeys] using hnd.1)
      · simp [alookup, h0]
        exact ih hnd.2 h

theorem mem_aset {m : List (String × α)} {k : String} {v : α} {e : String × α}
    (h : e ∈ aset m k v) : e ∈ m ∨ e = (k, v) := by
  induction m with
  | nil => simp [aset] at h; simp [h]
  | cons e0 rest ih =>
    obtain ⟨k', v'⟩ := e0
    by_cases h0 : k' = k
    · subst h0
      simp [aset] at h
      rcases h with h | h
      · right; simp [h]
      · left; simp [h]
    · simp [aset, h0] at h
      rcases h with h | h
      · left; simp [h]
      · rcases ih h with h1 | h1
        · left; exact List.mem_cons_of_mem _ h1
        · right; exact h1

end AList0

open AList0

/-- First-occurrence deduplication, mirroring the key order of a JavaScript
object populated by repeated assignment (`flattenedProps` in
`hoistTemplateProperties`) and the element set of a JavaScript `Set`. -/
def firstSeenAux [DecidableEq α] (seen : List α) : List α → List α
  | [] => []
  | k :: ks => if k ∈ seen then firstSeenAux seen ks else k :: firstSeenAux (k :: seen) ks

def firstSeen [DecidableEq α] (l : List α) : List α :=
  firstSeenAux [] l

theorem mem_firstSeenAux [DecidableEq α] (seen : List α) (l : List α) (k : α) :
    k ∈ firstSeenAux seen l ↔ k ∈ l ∧ k ∉ seen := by
  induction l generalizing seen with
  | nil => simp [firstSeenAux]
  | cons x xs ih =>
    by_cases hx : x ∈ seen
    · simp only [firstSeenAux, if_pos hx, ih, List.mem_cons]
      constructor
      · rintro ⟨h1, h2⟩
        exact ⟨Or.inr h1, h2⟩
      · rintro ⟨h1 | h1, h2⟩
        · subst h1; exact absurd hx h2
        · exact ⟨h1, h2⟩
    · simp only [firstSeenAux, if_neg hx, List.mem_cons, ih]
      constructor
      · rintro (h | ⟨h1, h2⟩)
        · subst h; exact ⟨Or.inl rfl, hx⟩
        · simp at h2
          exact ⟨Or.inr h1, h2.2⟩
      · rintro ⟨h1 | h1, h2⟩
        · subst h1; exact Or.inl rfl
        · by_cases hk : k = x
          · subst hk; exact Or.inl rfl
          · exact Or.inr ⟨h1, by simp [hk, h2]⟩

theorem mem_firstSeen [DecidableEq α] (l : List α) (k : α) :
    k ∈ firstSeen l ↔ k ∈ l := by
  simp [firstSeen, mem_firstSeenAux]

theorem nodup_firstSeenAux [DecidableEq α] (seen : List α) (l : List α) :
    (firstSeenAux seen l).Nodup := by
  induction l generalizing seen with
  | nil => simp [firstSeenAux]
  | cons x xs ih =>
    by_cases hx : x ∈ seen
    · simpa [firstSeenAux, hx] using ih seen
    · simp only [firstSeenAux, if_neg hx, List.nodup_cons]
      refine ⟨?_, ih (x :: seen)⟩
      rw [mem_firstSeenAux]
      rintro ⟨-, h2⟩
      exact h2 (List.mem_cons_self x seen)

theorem nodup_firstSeen [DecidableEq α] (l : List α) : (firstSeen l).Nodup :=
  nodup_firstSeenAux [] l

/-- The list `firstSeen l` has exactly one element iff `l` is nonempty and all of its
elements are equal (this is the JavaScript `new Set(v).size === 1` check). -/
theorem firstSeen_length_one_iff [DecidableEq α] (l : List α) :
    (firstSeen l).length = 1 ↔ ∃ x, l ≠ [] ∧ ∀ y ∈ l, y = x := by
  constructor
  · intro h
    match hfs : firstSeen l with
    | [] => rw [hfs] at h; simp at h
    | x :: y :: rest => rw [hfs] at h; simp at h
    | [x] =>
      refine ⟨x, ?_, ?_⟩
      · intro hnil
        subst hnil
        simp [firstSeen, firstSeenAux] at hfs
      · intro y hy
        have : y ∈ firstSeen l := (mem_firstSeen l y).mpr hy
        rw [hfs] at this
        simpa using this
  · rintro ⟨x, hne, hall⟩
    have hx : x ∈ l := by
      match l with
      | [] => exact absurd rfl hne
      | z :: zs =>
        have hz := hall z (List.mem_cons_self z zs)
        rw [← hz]
        exact List.mem_cons_self z zs
    have hsub : firstSeen l = [x] := by
      have hmemx : x ∈ firstSeen l := (mem_firstSeen l x).mpr hx
      match hfs : firstSeen l with
      | [] => rw [hfs] at hmemx; simp at hmemx
      | [z] =>
        have : z ∈ l := (mem_firstSeen l z).mp (by rw [hfs]; simp)
        have := hall z this
        subst this
        rfl
      | z :: w :: rest =>
        have hnd := nodup_firstSeen l
        rw [hfs] at hnd
        have hz : z ∈ l := (mem_firstSeen l z).mp (by rw [hfs]; simp)
        have hw : w ∈ l := (mem_firstSeen l w).mp (by rw [hfs]; simp)
        have hz' := hall z hz
        have hw' := hall w hw
        subst hz'
        rw [hw'] at hnd
        simp at hnd
    rw [hsub]
    rfl

/-! ## Data model (`IConfigProfile`, `IConfig`) -/

/-- Profile record (`IConfigProfile`): one named, typed profile instance. -/
structure ConfigProfile where
  type : String
  properties : List (String × JVal)
  secure : List String
deriving DecidableEq, Repr

/-- Root config document (`IConfig`). -/
structure IConfig where
  defaults : List (String × String)
  profiles : List (String × ConfigProfile)
  plugins : List String
  secure : List String
  properties : List (String × JVal)
  autoStore : Bool
deriving DecidableEq, Repr

/-- The empty config, as built by `Config.empty()`. -/
def configEmpty : IConfig :=
  { defaults := [], profiles := [], plugins := [], secure := [], properties := [],
    autoStore := false }

/-! ## `ConfigBuilder.getDefaultValue` -/

/-- Model of `ConfigBuilder.getDefaultValue`.  The source accepts `string | string[]`
and consults only the first element of an array; both shapes are carried
here as a list whose head is the consulted tag (a plain string `s` is the
singleton `[s]`, and an empty array yields the default branch). -/
def getDefaultValue (propType : List String) : JVal :=
  match propType.head? with
  | some "string" => JVal.vStr ""
  | some "number" => JVal.vNum 0
  | some "object" => JVal.vEmptyObj
  | some "array" => JVal.vEmptyArr
  | some "boolean" => JVal.vBool false
  | _ => JVal.vNull

/-! ## `ConfigBuilder.hoistTemplateProperties` -/

/-- The non-base profiles: `Object.values(profiles).filter(({type}) => type !== baseProfileType)`. -/
def childProfiles (profiles : List (String × ConfigProfile)) (baseType : String) :
    List ConfigProfile :=
  (profiles.map Prod.snd).filter (fun p => p.type != baseType)

/-- The list of values of property `k` across the given profiles
(`flattenedProps[k]`), in profile order. -/
def propValues (children : List ConfigProfile) (k : String) : List JVal :=
  children.filterMap (fun p => alookup p.properties k)

/-- The keys of `flattenedProps`, in first-seen order. -/
def flattenedKeys (children : List ConfigProfile) : List String :=
  firstSeen ((children.map (fun p => akeys p.properties)).flatten)

/-- The `duplicateProps` list: property names defined in more than one non-base
profile, all with the same value (`v.length > 1 && new Set(v).size === 1`). -/
def duplicateProps (children : List ConfigProfile) : List String :=
  (flattenedKeys children).filter (fun k =>
    decide ((propValues children k).length > 1) &&
      decide ((firstSeen (propValues children k)).length = 1))

/-- The spread `\x7b [propName]: v, ...oldProps \x7d`: an existing key keeps its value
(spread overrides the earlier computed property) and moves to the front;
a fresh key is prepended with the supplied value. -/
def spreadPrepend (old : List (String × JVal)) (k : String) (v : JVal) :
    List (String × JVal) :=
  match alookup old k with
  | some w => (k, w) :: adel old k
  | none => (k, v) :: old

/-- The per-entry effect of hoisting one candidate property `kv`: the entry
stored under the base key receives the spread-insert, and every entry whose
type is not the base type then has the property deleted. -/
def entryStep (baseType : String) (kv : String × JVal) (e : String × ConfigProfile) :
    String × ConfigProfile :=
  let p := e.2
  let p1 := if e.1 = baseType then { p with properties := spreadPrepend p.properties kv.1 kv.2 } else p
  let p2 := if p1.type ≠ baseType then { p1 with properties := adel p1.properties kv.1 } else p1
  (e.1, p2)

/-- One iteration of the `for (const propName of duplicateProps)` loop,
expressed entry-wise over the profiles object. -/
def applyHoist (baseType : String) (kv : String × JVal) (ps : List (String × ConfigProfile)) :
    List (String × ConfigProfile) :=
  ps.map (entryStep baseType kv)

/-- The hoist candidates paired with `flattenedProps[propName][0]`. -/
def hoistPairs (profiles : List (String × ConfigProfile)) (baseType : String) :
    List (String × JVal) :=
  (duplicateProps (childProfiles profiles baseType)).map
    (fun k => (k, (propValues (childProfiles profiles baseType) k).headD JVal.vNull))

/-- Model of `ConfigBuilder.hoistTemplateProperties`.  Returns the rewritten profiles
object and the hoisted property names.  (In the source the JavaScript crashes
if `profiles[baseProfileType]` is missing while candidates exist; this model
is total and the theorems carry the corresponding existence hypothesis.) -/
def hoistTemplateProperties (profiles : List (String × ConfigProfile)) (baseType : String) :
    List (String × ConfigProfile) × List String :=
  ((hoistPairs profiles baseType).foldl (fun ps kv => applyHoist baseType kv ps) profiles,
    duplicateProps (childProfiles profiles baseType))

/-! ## `ConfigBuilder.build` -/

/-- A profile schema property (`IProfileSchemaProperty`): the `type` tag list,
the `secure` and `includeInTemplate` flags, and the observable effect of
`optionDefinition.defaultValue` (absent option definition and an option
definition without a default value behave identically, as `none`). -/
structure SchemaProp where
  type : List String
  secure : Bool
  includeInTemplate : Bool
  defaultValue : Option JVal
deriving DecidableEq, Repr

/-- One declared profile type of the app configuration. -/
structure ProfileDecl where
  type : String
  schema : List (String × SchemaProp)
deriving DecidableEq, Repr

/-- App configuration (`IImperativeConfig`), restricted to the fields `build` reads. -/
structure ImperativeConfig where
  profiles : List ProfileDecl
  baseProfile : Option ProfileDecl
deriving DecidableEq, Repr

/-- Builder options (`IConfigBuilderOpts`).  `getValueBack` is the optional callback; its
suspension is irrelevant to the properties proved here, so it is carried as
a pure function returning `none` for a null result. -/
structure ConfigBuilderOpts where
  populateProperties : Bool
  getValueBack : Option (String → SchemaProp → Option JVal)

/-- One step of the per-schema-property loop of `build`. -/
def buildPropStep (populate : Bool) (acc : List (String × JVal) × List String)
    (e : String × SchemaProp) : List (String × JVal) × List String :=
  if populate && e.2.includeInTemplate then
    if e.2.secure then (acc.1, acc.2 ++ [e.1])
    else (aset acc.1 e.1 (e.2.defaultValue.getD (getDefaultValue e.2.type)), acc.2)
  else acc

/-- The per-profile-type loop body of `build`: the `properties` map and
`secure` list assembled from the schema. -/
def buildProfileEntry (populate : Bool) (schema : List (String × SchemaProp)) :
    List (String × JVal) × List String :=
  schema.foldl (buildPropStep populate) ([], [])

/-- Model of `lodash.set(config, "profiles.base.properties." + k, v)`: writes through
the literal key `"base"`, creating a stub object (with no `type` and no
`secure` list) when that key is absent. -/
def lodashSetBaseProp (profiles : List (String × ConfigProfile)) (k : String) (v : JVal) :
    List (String × ConfigProfile) :=
  match alookup profiles "base" with
  | some p => aset profiles "base" { p with properties := aset p.properties k v }
  | none => aset profiles "base" { type := "", properties := [(k, v)], secure := [] }

/-- The result of `build` together with the callback-invocation trace and
the hoisted property names (internal values exposed for specification). -/
structure BuildResult where
  config : IConfig
  gvbCalls : List String
  hoisted : List String
deriving Repr

/-- The per-profile-type loop body of `build`. -/
def buildDeclStep (populate : Bool) (cfg : IConfig) (profile : ProfileDecl) : IConfig :=
  let e := buildProfileEntry populate profile.schema
  let cfg := { cfg with profiles :=
                (aset cfg.profiles profile.type
                  ⟨profile.type, e.1, e.2⟩ : List (String × ConfigProfile)) }
  if populate then
    { cfg with defaults := aset cfg.defaults profile.type profile.type }
  else cfg

/-- The per-base-schema-property loop body of the `getValueBack` phase of
`build`: when the property was hoisted or is a secure template property,
invoke the callback, and write a non-null result through the literal
`profiles.base` path. -/
def gvbStep (f : String → SchemaProp → Option JVal) (hoisted : List String)
    (acc : List (String × ConfigProfile) × List String) (e : String × SchemaProp) :
    List (String × ConfigProfile) × List String :=
  if hoisted.contains e.1 || (e.2.includeInTemplate && e.2.secure) then
    match f e.1 e.2 with
    | some pv => (lodashSetBaseProp acc.1 e.1 pv, acc.2 ++ [e.1])
    | none => (acc.1, acc.2 ++ [e.1])
  else acc

/-- Model of `ConfigBuilder.build`. -/
def build (impConfig : ImperativeConfig) (opts : ConfigBuilderOpts) : BuildResult :=
  let config := impConfig.profiles.foldl (buildDeclStep opts.populateProperties) configEmpty
  match impConfig.baseProfile with
  | none => { config := { config with autoStore := true }, gvbCalls := [], hoisted := [] }
  | some bp =>
    let hr := hoistTemplateProperties config.profiles bp.type
    let config := { config with profiles := hr.1 }
    match opts.getValueBack with
    | none => { config := { config with autoStore := true }, gvbCalls := [], hoisted := hr.2 }
    | some f =>
      let fin := bp.schema.foldl (gvbStep f hr.2) (config.profiles, [])
      { config := { config with profiles := fin.1, autoStore := true },
        gvbCalls := fin.2, hoisted := hr.2 }

/-! ## `ConfigBuilder.convert` and `ConfigBuilder.convertPropNames` -/

/-- The constant `ProfilesConstants.PROFILES_OPTION_SECURELY_STORED`. -/
def securelyStoredSentinel : String := "managed by"

/-- Model of `s.startsWith(p)`, computed on the underlying character lists (the
standard-library `String.startsWith` is semantically identical but does
not reduce inside the kernel). -/
def strStartsWith (s p : String) : Bool :=
  p.data.isPrefixOf s.data

/-- A failure entry of the conversion result (`{name?, type, error}`).
Errors are carried as their message strings. -/
structure FailedEntry where
  name : Option String
  type : String
  error : String
deriving DecidableEq, Repr

/-- Conversion result (`IConfigConvertResult`). -/
structure ConvertResult where
  config : IConfig
  profilesConverted : List (String × List String)
  profilesFailed : List FailedEntry
deriving DecidableEq, Repr

/-- Modelled from the spec: `ProfileUtils.getProfileMapKey` is not under
`src/`; the spec says only that the profile map key is a composite derived
from `(type, name)`.  The claims settled here do not depend on its exact
shape, only on it being a deterministic function of the pair. -/
def getProfileMapKey (ptype name : String) : String :=
  ptype ++ "_" ++ name

/-- Model of `value.toString()` for the sentinel check.  `null` has no `toString`
and throws a `TypeError` in JavaScript, which the enclosing per-profile
`try` turns into a failure entry; that is modelled by the `Except` error.
An empty array stringifies to `""` and an empty object to
`"[object Object]"`. -/
def jsToString : JVal → Except String String
  | JVal.vStr s => Except.ok s
  | JVal.vNum n => Except.ok (toString n)
  | JVal.vBool b => Except.ok (if b then "true" else "false")
  | JVal.vNull => Except.error "TypeError: Cannot read properties of null"
  | JVal.vEmptyArr => Except.ok ""
  | JVal.vEmptyObj => Except.ok "[object Object]"

/-- The external collaborators consumed by `convert`: directory listing,
profile/meta file reading, the credential vault, and `JSON.parse` of a
vault secret (which may itself throw). -/
structure ConvertEnv where
  profileTypes : List String
  profileNames : String → List String
  readProfile : String → String → Except String (List (String × JVal))
  vaultLoad : String → String → String → Option String
  parseSecret : String → Except String JVal
  readMeta : String → Except String (Option String)

/-- The loop body of the per-profile `try` block, walking the snapshot of
`Object.entries(profileProps)`: for a value carrying the securely-stored
sentinel either substitute the parsed vault secret and record the name as
secure, or delete the property when the vault returns null.  Any thrown
error (a `toString` on null, a vault secret that fails `JSON.parse`)
propagates to the enclosing catch. -/
def convertPropsLoop (env : ConvertEnv) (ptype pname : String) :
    List (String × JVal) → List (String × JVal) × List String →
    Except String (List (String × JVal) × List String)
  | [], acc => Except.ok acc
  | e :: rest, acc =>
    match jsToString e.2 with
    | Except.error msg => Except.error msg
    | Except.ok s =>
      if strStartsWith s securelyStoredSentinel then
        match env.vaultLoad ptype pname e.1 with
        | some secretStr =>
          match env.parseSecret secretStr with
          | Except.error msg => Except.error msg
          | Except.ok parsed =>
            convertPropsLoop env ptype pname rest (aset acc.1 e.1 parsed, acc.2 ++ [e.1])
        | none => convertPropsLoop env ptype pname rest (adel acc.1 e.1, acc.2)
      else convertPropsLoop env ptype pname rest acc

/-- The body of the per-profile `try` block. -/
def convertProfileProps (env : ConvertEnv) (ptype pname : String)
    (props : List (String × JVal)) :
    Except String (List (String × JVal) × List String) :=
  convertPropsLoop env ptype pname props (props, [])

/-- Reading plus converting one profile (the whole per-profile `try` body
up to the assembled profile). -/
def processOneProfile (env : ConvertEnv) (ptype pname : String) :
    Except String (List (String × JVal) × List String) :=
  match env.readProfile ptype pname with
  | Except.error e => Except.error e
  | Except.ok props => convertProfileProps env ptype pname props

/-- The per-profile-name loop step of `convert`. -/
def perProfileStep (env : ConvertEnv) (ptype : String) (result : ConvertResult)
    (pname : String) : ConvertResult :=
  match processOneProfile env ptype pname with
  | Except.ok e =>
    let newProfiles := aset result.config.profiles (getProfileMapKey ptype pname) ⟨ptype, e.1, e.2⟩
    let newConverted := aset result.profilesConverted ptype ((alookup result.profilesConverted ptype).getD [] ++ [pname])
    { result with
      config := { result.config with profiles := newProfiles },
      profilesConverted := newConverted }
  | Except.error err =>
    { result with profilesFailed := result.profilesFailed ++ [⟨some pname, ptype, err⟩] }

/-- The per-profile-type loop body of `convert`: a type with no named
profiles is skipped entirely; otherwise convert each profile, then read the
meta file for the default profile reference. -/
def perTypeStep (env : ConvertEnv) (result : ConvertResult) (ptype : String) :
    ConvertResult :=
  let names := env.profileNames ptype
  if names.isEmpty then result
  else
    let result := names.foldl (perProfileStep env ptype) result
    match env.readMeta ptype with
    | Except.ok (some defName) =>
      let newDefaults := aset result.config.defaults ptype (getProfileMapKey ptype defName)
      { result with config := { result.config with defaults := newDefaults } }
    | Except.ok none => result
    | Except.error err =>
      { result with profilesFailed := result.profilesFailed ++ [⟨none, ptype, err⟩] }

/-- The fixed rename table of `convertPropNames`. -/
def nameConversions : List (String × String) :=
  [("hostname", "host"), ("username", "user"), ("pass", "password")]

/-- The inner `for ... break` over the rename table: the first matching
rule for a property name, if any. -/
def convName (k : String) : Option (String × String) :=
  nameConversions.find? (fun c => c.1 == k)

/-- Renaming of the plain properties of one profile: first collect the
staged conversions over a snapshot of the entries, then delete each old key
and store its value under the new key. -/
def renameProps (props : List (String × JVal)) : List (String × JVal) :=
  let toConvert := props.filterMap (fun e => (convName e.1).map (fun c => (c.1, c.2, e.2)))
  toConvert.foldl (fun ps c => aset (adel ps c.1) c.2.1 c.2.2) props

/-- Renaming of the secure name list of one profile, in place by index. -/
def renameSecure (secure : List String) : List String :=
  secure.map (fun s => ((convName s).map Prod.snd).getD s)

/-- The per-profile effect of `convertPropNames`. -/
def renameProfileEntry (e : String × ConfigProfile) : String × ConfigProfile :=
  (e.1, { e.2 with properties := renameProps e.2.properties, secure := renameSecure e.2.secure })

/-- Model of `ConfigBuilder.convertPropNames`, applied to every profile of the
conversion result. -/
def convertPropNames (result : ConvertResult) : ConvertResult :=
  let newProfiles := result.config.profiles.map renameProfileEntry
  { result with config := { result.config with profiles := newProfiles } }

/-- Model of `ConfigBuilder.convert`. -/
def convert (env : ConvertEnv) : ConvertResult :=
  let result := env.profileTypes.foldl (perTypeStep env)
    { config := configEmpty, profilesConverted := [], profilesFailed := [] }
  let result := convertPropNames result
  { result with config := { result.config with autoStore := true } }

/-! ## `BaseAuthHandler.processLogin` / `BaseAuthHandler.processLogout` -/

/-- The constant `SessConstants.AUTH_TYPE_BASIC`. -/
def AUTH_TYPE_BASIC : String := "basic"

/-- The constant `SessConstants.AUTH_TYPE_TOKEN`. -/
def AUTH_TYPE_TOKEN : String := "token"

/-- The session fields the handler reads and writes (`ISession`). -/
structure SessionState where
  type : String
  tokenType : Option String
  tokenValue : Option String
deriving DecidableEq, Repr

/-- The command arguments the handler reads.  A missing command-line option
is `none` (JavaScript `undefined`). -/
structure AuthArgs where
  tokenType : Option String
  tokenValue : Option String
  host : Option String
  port : Option Int
  showToken : Bool
deriving DecidableEq, Repr

/-- The stored profile data the handler compares against and rewrites. -/
structure ProfileData where
  tokenType : Option String
  tokenValue : Option String
deriving DecidableEq, Repr

/-- The result of `params.profiles.getMeta(type, false)`. -/
structure LoadedProfileMeta where
  name : Option String
  type : String
  profile : ProfileData
deriving DecidableEq, Repr

/-- The external collaborators of the handler: the profile store's
`getMeta`, the type-specific session builder, the credential merger
(`CredsForSessCfg.addCredsOrPrompt`), and the type-specific
`doLogin` / `doLogout` exchanges (which may throw). -/
structure AuthEnv where
  profileType : String
  defaultTokenType : String
  getMeta : String → LoadedProfileMeta
  createSessCfgFromArgs : AuthArgs → SessionState
  addCredsOrPrompt : SessionState → AuthArgs → SessionState
  doLogin : SessionState → Except String String
  doLogout : SessionState → Except String Unit

/-- Observable side effects of one handler invocation, in order. -/
inductive AuthEvent where
  | getMetaCall (ptype : String)
  | sessionCreated (s : SessionState)
  | loginExchange (s : SessionState)
  | logoutExchange (s : SessionState)
  | updateCall (name : String) (tokenType : Option String) (tokenValue : String) (merge : Bool)
  | saveCall (name : String) (ptype : String) (overwrite : Bool) (profile : ProfileData)
  | consoleLog (msg : String)
deriving DecidableEq, Repr

/-- String rendering of a possibly-undefined token type inside the
template literal (JavaScript concatenates `undefined` as "undefined"). -/
def optTokenTypeText : Option String → String
  | some s => s
  | none => "undefined"

/-- The show-token console message of `processLogin`. -/
def showTokenMsg (tokenType : Option String) (tokenValue : String) : String :=
  "\nReceived a token of type = " ++ optTokenTypeText tokenType ++
    ".\nThe following token was stored in your profile:\n" ++ tokenValue

/-- The session `processLogin` operates on: the type-specific session
config merged with credentials. -/
def loginSession (env : AuthEnv) (args : AuthArgs) : SessionState :=
  env.addCredsOrPrompt (env.createSessCfgFromArgs args) args

/-- Model of `BaseAuthHandler.processLogin`: the event trace and the outcome (the
final `mSession` on success, the propagated error otherwise). -/
def processLogin (env : AuthEnv) (args : AuthArgs) :
    List AuthEvent × Except String SessionState :=
  let meta := env.getMeta env.profileType
  let sess := loginSession env args
  let ev := [AuthEvent.getMetaCall env.profileType, AuthEvent.sessionCreated sess,
             AuthEvent.loginExchange sess]
  match env.doLogin sess with
  | Except.error e => (ev, Except.error e)
  | Except.ok tokenValue =>
    let ev := match meta.name with
      | some n =>
        if !args.showToken then
          ev ++ [AuthEvent.updateCall n sess.tokenType tokenValue true]
        else ev
      | none => ev
    let ev := ev ++ [AuthEvent.consoleLog "Login successful."]
    let ev := if args.showToken then
        ev ++ [AuthEvent.consoleLog (showTokenMsg sess.tokenType tokenValue)]
      else ev
    (ev, Except.ok sess)

/-- The `ImperativeExpect` validation chain of `processLogout`, in source
order; returns the message of the first failing expectation. -/
def logoutValidationError (args : AuthArgs) : Option String :=
  if args.tokenType.isNone then some "Token type not supplied, but is required for logout."
  else if args.tokenValue.isNone then some "Token value not supplied, but is required for logout."
  else if args.host.isNone then some "Host not supplied, but is required for logout."
  else if args.port.isNone then some "Port not supplied, but is required for logout."
  else none

/-- The mutated session `doLogout` is invoked on: token auth mode with the
supplied token type and value. -/
def logoutSessionWithToken (env : AuthEnv) (args : AuthArgs) : SessionState :=
  { env.createSessCfgFromArgs args with
    type := AUTH_TYPE_TOKEN, tokenType := args.tokenType, tokenValue := args.tokenValue }

/-- Model of `BaseAuthHandler.processLogout`: the event trace and the outcome.
Note that `getMeta` is consulted and the session is built and assigned to
`mSession` before the argument validation runs. -/
def processLogout (env : AuthEnv) (args : AuthArgs) :
    List AuthEvent × Except String SessionState :=
  let meta := env.getMeta env.profileType
  let s0 := env.createSessCfgFromArgs args
  let ev := [AuthEvent.getMetaCall env.profileType, AuthEvent.sessionCreated s0]
  match logoutValidationError args with
  | some msg => (ev, Except.error msg)
  | none =>
    let s1 := logoutSessionWithToken env args
    match env.doLogout s1 with
    | Except.error e => (ev ++ [AuthEvent.logoutExchange s1], Except.error e)
    | Except.ok _ =>
      let ev := ev ++ [AuthEvent.logoutExchange s1]
      let ev := match meta.name with
        | some n =>
          if args.tokenValue = meta.profile.tokenValue then
            ev ++ [AuthEvent.saveCall n meta.type true
                    { meta.profile with tokenType := none, tokenValue := none }]
          else ev
        | none => ev
      let s2 := { s1 with type := AUTH_TYPE_BASIC, tokenType := none, tokenValue := none }
      (ev ++ [AuthEvent.consoleLog "Logout successful."], Except.ok s2)

/-- Recognizers for the profile-store mutation events. -/
def isUpdateCall : AuthEvent → Bool
  | AuthEvent.updateCall _ _ _ _ => true
  | _ => false

def isSaveCall : AuthEvent → Bool
  | AuthEvent.saveCall _ _ _ _ => true
  | _ => false

def isLogoutExchange : AuthEvent → Bool
  | AuthEvent.logoutExchange _ => true
  | _ => false

/-! ## Concrete fixtures for counterexamples and witnesses -/

/-- A conversion environment with one type "zosmf" and one profile "lpar1"
whose "user" property carries the securely-stored sentinel and whose vault
holds a resolvable secret. -/
def c1Env : ConvertEnv :=
  { profileTypes := ["zosmf"]
  , profileNames := fun t => if t = "zosmf" then ["lpar1"] else []
  , readProfile := fun t n =>
      if t = "zosmf" && n = "lpar1" then
        Except.ok [("user", JVal.vStr "managed by credential manager"), ("host", JVal.vStr "h")]
      else Except.error "missing"
  , vaultLoad := fun _ _ _ => some "sec"
  , parseSecret := fun s => if s = "sec" then Except.ok (JVal.vStr "secret") else Except.error "bad json"
  , readMeta := fun _ => Except.ok (some "lpar1") }

/-- Profiles in which the base profile already defines property "a" with
value 5 while both children define it with value 1. -/
def c2Profiles : List (String × ConfigProfile) :=
  [("base", ⟨"base", [("a", JVal.vNum 5)], []⟩),
   ("p1", ⟨"t1", [("a", JVal.vNum 1)], []⟩),
   ("p2", ⟨"t2", [("a", JVal.vNum 1)], []⟩)]

/-- A base profile declaration whose type is "main", not "base", with one
secure template property. -/
def c3BaseDecl : ProfileDecl :=
  ⟨"main", [("tok", ⟨["string"], true, true, none⟩)]⟩

def c3Opts : ConfigBuilderOpts :=
  ⟨true, some (fun _ _ => some (JVal.vStr "LIVE"))⟩

/-- An auth environment with a loaded profile named "prof" storing token
value "OLD". -/
def c45Env : AuthEnv :=
  { profileType := "fruit"
  , defaultTokenType := "jwtToken"
  , getMeta := fun _ => ⟨some "prof", "fruit", ⟨some "jwtToken", some "OLD"⟩⟩
  , createSessCfgFromArgs := fun _ => ⟨AUTH_TYPE_BASIC, none, none⟩
  , addCredsOrPrompt := fun s _ => { s with tokenType := some "jwtToken" }
  , doLogin := fun _ => Except.ok "NEWTOK"
  , doLogout := fun _ => Except.ok () }

/-- Logout arguments missing the token type. -/
def c4Args : AuthArgs := ⟨none, some "OLD", some "h", some 443, false⟩

/-! ## C1 -/

/-- C1 counterexample: the claim asserts that in a `ConfigBuilder.convert`
result no property name is simultaneously a key of `properties` and an
entry of `secure`, and in particular that a converted legacy profile whose
sentinel-carrying property resolved to a non-null vault secret does not
list the name in both.  On `c1Env` the converted profile "zosmf_lpar1" has
"user" both as a key of `properties` (bound to the parsed secret) and as
an entry of `secure`. -/
theorem c1_counterexample :
    alookup (convert c1Env).config.profiles "zosmf_lpar1" =
      some ⟨"zosmf", [("user", JVal.vStr "secret"), ("host", JVal.vStr "h")], ["user"]⟩
    ∧ "user" ∈ akeys [("user", JVal.vStr "secret"), ("host", JVal.vStr "h")]
    ∧ "user" ∈ ["user"] := by
  refine ⟨by rfl, by decide, by decide⟩

/-! ## C2 -/

/-- C2 counterexample: "a" is hoisted (it appears in both children with the
identical value 1), yet the base profile does not receive the shared value
1: the spread `{ [propName]: v, ...baseProps }` lets the base profile's
pre-existing value 5 win. -/
theorem c2_counterexample :
    (hoistTemplateProperties c2Profiles "base").2 = ["a"]
    ∧ propValues (childProfiles c2Profiles "base") "a" = [JVal.vNum 1, JVal.vNum 1]
    ∧ alookup (hoistTemplateProperties c2Profiles "base").1 "base" =
        some ⟨"base", [("a", JVal.vNum 5)], []⟩
    ∧ JVal.vNum 5 ≠ JVal.vNum 1 := by
  refine ⟨by rfl, by rfl, by rfl, by decide⟩

/-! ## C3 -/

/-- C3 counterexample: with the base profile type named "main", the
callback result is not written into the profile stored under "main" (its
properties stay empty); it lands in a stub profile created under the
literal key "base". -/
theorem c3_counterexample :
    alookup (build ⟨[c3BaseDecl], some c3BaseDecl⟩ c3Opts).config.profiles "main" =
      some ⟨"main", [], ["tok"]⟩
    ∧ alookup (build ⟨[c3BaseDecl], some c3BaseDecl⟩ c3Opts).config.profiles "base" =
      some ⟨"", [("tok", JVal.vStr "LIVE")], []⟩ := by
  refine ⟨by rfl, by rfl⟩

/-! ## C4 -/

/-- C4 counterexample: on a logout invocation missing the token type the
handler does fail with the validation error, but it has already called the
profile store's `getMeta` and has already created and assigned the session
before the validation runs — contradicting "no profile-store call is made,
and no session state is created or mutated before the failure". -/
theorem c4_counterexample :
    (processLogout c45Env c4Args).1 =
      [AuthEvent.getMetaCall "fruit",
       AuthEvent.sessionCreated ⟨AUTH_TYPE_BASIC, none, none⟩]
    ∧ (processLogout c45Env c4Args).2 =
      Except.error "Token type not supplied, but is required for logout." := by
  refine ⟨by rfl, by rfl⟩

/-- Characterization of the logout validation chain. -/
theorem logoutValidationError_eq_none_iff (args : AuthArgs) :
    logoutValidationError args = none ↔
      args.tokenType.isSome ∧ args.tokenValue.isSome ∧ args.host.isSome ∧ args.port.isSome := by
  unfold logoutValidationError
  by_cases h1 : args.tokenType.isNone <;> by_cases h2 : args.tokenValue.isNone <;>
    by_cases h3 : args.host.isNone <;> by_cases h4 : args.port.isNone <;>
      simp_all [Option.isNone_iff_eq_none, Option.isSome_iff_ne_none]

/-- The validation chain only produces the four descriptive messages. -/
theorem logoutValidationError_mem (args : AuthArgs) (msg : String)
    (h : logoutValidationError args = some msg) :
    msg ∈ ["Token type not supplied, but is required for logout.",
           "Token value not supplied, but is required for logout.",
           "Host not supplied, but is required for logout.",
           "Port not supplied, but is required for logout."] := by
  unfold logoutValidationError at h
  by_cases h1 : args.tokenType.isNone <;> by_cases h2 : args.tokenValue.isNone <;>
    by_cases h3 : args.host.isNone <;> by_cases h4 : args.port.isNone <;>
      simp_all

/-- C4 (amended): a logout invocation missing token type, token value, host
or port fails with one of the four descriptive validation messages, before
`doLogout` and before any `update`/`save` profile-store mutation — but the
profile store's `getMeta` has already been consulted and the in-memory
session has already been created from the arguments when the validation
fails. -/
theorem c4_logout_validation (env : AuthEnv) (args : AuthArgs)
    (h : args.tokenType = none ∨ args.tokenValue = none ∨ args.host = none ∨ args.port = none) :
    (processLogout env args).1 =
      [AuthEvent.getMetaCall env.profileType,
       AuthEvent.sessionCreated (env.createSessCfgFromArgs args)]
    ∧ (∃ msg, (processLogout env args).2 = Except.error msg ∧
        msg ∈ ["Token type not supplied, but is required for logout.",
               "Token value not supplied, but is required for logout.",
               "Host not supplied, but is required for logout.",
               "Port not supplied, but is required for logout."]) := by
  have hv : logoutValidationError args ≠ none := by
    rw [Ne, logoutValidationError_eq_none_iff]
    rcases h with h | h | h | h <;> simp [h]
  rcases hmsg : logoutValidationError args with _ | msg
  · exact absurd hmsg hv
  · refine ⟨?_, msg, ?_, logoutValidationError_mem args msg hmsg⟩ <;>
      simp [processLogout, hmsg]

/-- C4 witness. -/
theorem c4_logout_validation_witness :
    (processLogout c45Env c4Args).1 =
      [AuthEvent.getMetaCall "fruit",
       AuthEvent.sessionCreated ⟨AUTH_TYPE_BASIC, none, none⟩] :=
  (c4_logout_validation c45Env c4Args (Or.inl rfl)).1

/-- C5: a logout that passes validation and whose `doLogout` succeeds, with
no loaded profile name or a token value differing from the stored one,
makes no `save` call, still resets the in-memory session to basic mode with
both token fields cleared, and reports success. -/
theorem c5_logout_mismatch_no_save (env : AuthEnv) (args : AuthArgs)
    (h1 : args.tokenType.isSome) (h2 : args.tokenValue.isSome)
    (h3 : args.host.isSome) (h4 : args.port.isSome)
    (hok : env.doLogout (logoutSessionWithToken env args) = Except.ok ())
    (hmis : (env.getMeta env.profileType).name = none ∨
            args.tokenValue ≠ (env.getMeta env.profileType).profile.tokenValue) :
    (∀ e ∈ (processLogout env args).1, isSaveCall e = false)
    ∧ (processLogout env args).2 =
        Except.ok { logoutSessionWithToken env args with
                     type := AUTH_TYPE_BASIC, tokenType := none, tokenValue := none }
    ∧ AuthEvent.consoleLog "Logout successful." ∈ (processLogout env args).1 := by
  have hval : logoutValidationError args = none :=
    (logoutValidationError_eq_none_iff args).mpr ⟨h1, h2, h3, h4⟩
  rcases hname : (env.getMeta env.profileType).name with _ | n
  · refine ⟨?_, ?_, ?_⟩ <;> simp [processLogout, hval, hok, hname, isSaveCall]
  · have hne : ¬(args.tokenValue = (env.getMeta env.profileType).profile.tokenValue) := by
      rcases hmis with hmis | hmis
      · rw [hname] at hmis; exact Option.noConfusion hmis
      · exact hmis
    refine ⟨?_, ?_, ?_⟩ <;> simp [processLogout, hval, hok, hname, hne, isSaveCall]

def c5Args : AuthArgs := ⟨some "jwtToken", some "DIFFERENT", some "h", some 443, false⟩

/-- C5 witness. -/
theorem c5_logout_mismatch_no_save_witness :
    (processLogout c45Env c5Args).2 = Except.ok ⟨AUTH_TYPE_BASIC, none, none⟩
    ∧ AuthEvent.consoleLog "Logout successful." ∈ (processLogout c45Env c5Args).1 :=
  ⟨(c5_logout_mismatch_no_save c45Env c5Args rfl rfl rfl rfl rfl
      (Or.inr (by decide))).2.1,
   (c5_logout_mismatch_no_save c45Env c5Args rfl rfl rfl rfl rfl
      (Or.inr (by decide))).2.2⟩

/-- C6: a login with a named loaded profile and a successfully obtained
token makes exactly one merge-mode `update` call carrying the new token
type and value when `showToken` is false; when `showToken` is true it makes
no `update` call and surfaces the token on the output channel instead.  The
two outcomes are mutually exclusive by the case split on `showToken`. -/
theorem c6_login_update_exclusive (env : AuthEnv) (args : AuthArgs) (n tok : String)
    (hname : (env.getMeta env.profileType).name = some n)
    (hlogin : env.doLogin (loginSession env args) = Except.ok tok) :
    (args.showToken = false →
      List.countP isUpdateCall (processLogin env args).1 = 1
      ∧ AuthEvent.updateCall n (loginSession env args).tokenType tok true ∈ (processLogin env args).1)
    ∧ (args.showToken = true →
      List.countP isUpdateCall (processLogin env args).1 = 0
      ∧ AuthEvent.consoleLog (showTokenMsg (loginSession env args).tokenType tok) ∈ (processLogin env args).1) := by
  constructor
  · intro hshow
    refine ⟨?_, ?_⟩ <;>
      simp [processLogin, hname, hlogin, hshow, List.countP_cons, List.countP_nil, isUpdateCall]
  · intro hshow
    refine ⟨?_, ?_⟩ <;>
      simp [processLogin, hname, hlogin, hshow, List.countP_cons, List.countP_nil, isUpdateCall]

def c6Args : AuthArgs := ⟨none, none, some "h", some 443, false⟩

/-- C6 witness. -/
theorem c6_login_update_exclusive_witness :
    List.countP isUpdateCall (processLogin c45Env c6Args).1 = 1
    ∧ AuthEvent.updateCall "prof" (some "jwtToken") "NEWTOK" true ∈ (processLogin c45Env c6Args).1 :=
  (c6_login_update_exclusive c45Env c6Args "prof" "NEWTOK" rfl rfl).1 rfl

/-! ## Rename lemmas -/

/-- The staged conversions collected by the first pass of
`convertPropNames` over one profile's properties. -/
def toConvert (props : List (String × JVal)) : List (String × String × JVal) :=
  props.filterMap (fun e => (convName e.1).map (fun c => (c.1, c.2, e.2)))

/-- The second pass: delete each old key and store its value under the new
key. -/
def applyRen (ps : List (String × JVal)) (list : List (String × String × JVal)) :
    List (String × JVal) :=
  list.foldl (fun ps c => aset (adel ps c.1) c.2.1 c.2.2) ps

theorem applyRen_nil (ps : List (String × JVal)) : applyRen ps [] = ps := rfl

theorem applyRen_cons (ps : List (String × JVal)) (c : String × String × JVal)
    (rest : List (String × String × JVal)) :
    applyRen ps (c :: rest) = applyRen (aset (adel ps c.1) c.2.1 c.2.2) rest := rfl

theorem renameProps_eq (props : List (String × JVal)) :
    renameProps props = applyRen props (toConvert props) := rfl

theorem convName_fst {s : String} {c : String × String} (h : convName s = some c) :
    c.1 = s ∧ c ∈ nameConversions := by
  unfold convName at h
  refine ⟨by simpa using List.find?_some h, List.mem_of_find?_eq_some h⟩

theorem conv_convName : ∀ c ∈ nameConversions, convName c.1 = some c := by
  decide

theorem conv_new_ne_old : ∀ c ∈ nameConversions, ∀ c' ∈ nameConversions, c.2 ≠ c'.1 := by
  decide

theorem conv_new_determines_old : ∀ c ∈ nameConversions, ∀ c' ∈ nameConversions,
    c.2 = c'.2 → c.1 = c'.1 := by
  decide

theorem mem_toConvert_of {props : List (String × JVal)} {o n : String} {v : JVal}
    (hp : (o, v) ∈ props) (hcv : convName o = some (o, n)) :
    (o, n, v) ∈ toConvert props := by
  unfold toConvert
  exact List.mem_filterMap.mpr ⟨(o, v), hp, by simp [hcv]⟩

theorem toConvert_shape {props : List (String × JVal)} {c : String × String × JVal}
    (h : c ∈ toConvert props) :
    (c.1, c.2.1) ∈ nameConversions ∧ (c.1, c.2.2) ∈ props := by
  unfold toConvert at h
  obtain ⟨e, he, hfe⟩ := List.mem_filterMap.mp h
  cases hconv : convName e.1 with
  | none => rw [hconv] at hfe; exact absurd hfe (by simp)
  | some p =>
    rw [hconv] at hfe
    obtain ⟨hp1, hcm⟩ := convName_fst hconv
    simp only [Option.map_some'] at hfe
    have hc : c = (p.1, p.2, e.2) := by
      injection hfe with h'
      exact h'.symm
    subst hc
    refine ⟨hcm, ?_⟩
    rw [hp1]
    exact he

theorem toConvert_fst_nodup {props : List (String × JVal)}
    (hnd : (akeys props).Nodup) :
    ((toConvert props).map (fun c => c.1)).Nodup := by
  induction props with
  | nil => simp [toConvert]
  | cons e rest ih =>
    simp only [akeys, List.map_cons, List.nodup_cons] at hnd
    have hrest := ih hnd.2
    unfold toConvert
    rw [List.filterMap_cons]
    cases hconv : convName e.1 with
    | none => exact hrest
    | some p =>
      simp only [Option.map_some']
      rw [List.map_cons, List.nodup_cons]
      refine ⟨?_, hrest⟩
      intro hmem
      obtain ⟨c, hc, hceq⟩ := List.mem_map.mp hmem
      have hshape := toConvert_shape hc
      have hmemk : c.1 ∈ akeys rest := List.mem_map_of_mem Prod.fst hshape.2
      rw [hceq, (convName_fst hconv).1] at hmemk
      exact hnd.1 (by simpa [akeys] using hmemk)

theorem applyRen_lookup_untouched (list : List (String × String × JVal))
    (ps : List (String × JVal)) (k : String)
    (h : ∀ c ∈ list, c.1 ≠ k ∧ c.2.1 ≠ k) :
    alookup (applyRen ps list) k = alookup ps k := by
  induction list generalizing ps with
  | nil => rfl
  | cons c rest ih =>
    have hc := h c (List.mem_cons_self c rest)
    rw [applyRen_cons, ih _ (fun c' hc' => h c' (List.mem_cons_of_mem _ hc')),
        alookup_aset_ne _ _ (Ne.symm hc.2), alookup_adel_ne _ (Ne.symm hc.1)]

theorem applyRen_lookup_none (list : List (String × String × JVal))
    (ps : List (String × JVal)) (o : String)
    (hno : ∀ c ∈ list, c.2.1 ≠ o) (h : alookup ps o = none) :
    alookup (applyRen ps list) o = none := by
  induction list generalizing ps with
  | nil => exact h
  | cons c rest ih =>
    rw [applyRen_cons]
    refine ih _ (fun c' hc' => hno c' (List.mem_cons_of_mem _ hc')) ?_
    rw [alookup_aset_ne _ _ (Ne.symm (hno c (List.mem_cons_self c rest)))]
    by_cases hck : o = c.1
    · rw [hck, alookup_adel_self]
    · rw [alookup_adel_ne _ hck]; exact h

theorem applyRen_lookup_old_hit (list : List (String × String × JVal))
    (ps : List (String × JVal)) (o : String)
    (hno : ∀ c ∈ list, c.2.1 ≠ o) (hhit : ∃ c ∈ list, c.1 = o) :
    alookup (applyRen ps list) o = none := by
  induction list generalizing ps with
  | nil => simp at hhit
  | cons c rest ih =>
    rw [applyRen_cons]
    obtain ⟨c', hc', hc'o⟩ := hhit
    rcases List.mem_cons.mp hc' with heq | hmem
    · subst heq
      refine applyRen_lookup_none rest _ o
        (fun c'' hc'' => hno c'' (List.mem_cons_of_mem _ hc'')) ?_
      rw [alookup_aset_ne _ _ (Ne.symm (hno c' (List.mem_cons_self c' rest))), hc'o,
          alookup_adel_self]
    · exact ih _ (fun c'' hc'' => hno c'' (List.mem_cons_of_mem _ hc'')) ⟨c', hmem, hc'o⟩

theorem applyRen_lookup_new (list : List (String × String × JVal))
    (ps : List (String × JVal)) (o n : String) (v : JVal)
    (hmem : (o, n, v) ∈ list)
    (huniq : ∀ c ∈ list, c.2.1 = n → c = (o, n, v))
    (hfst : ∀ c ∈ list, c.1 ≠ n)
    (hnd : (list.map (fun c => c.1)).Nodup) :
    alookup (applyRen ps list) n = some v := by
  induction list generalizing ps with
  | nil => simp at hmem
  | cons c rest ih =>
    rw [List.map_cons, List.nodup_cons] at hnd
    rcases List.mem_cons.mp hmem with heq | hmem'
    · rw [← heq] at hnd ⊢
      rw [applyRen_cons]
      have hrest : ∀ c' ∈ rest, c'.1 ≠ n ∧ c'.2.1 ≠ n := by
        intro c' hc'
        refine ⟨hfst c' (List.mem_cons_of_mem _ hc'), ?_⟩
        intro hn
        have := huniq c' (List.mem_cons_of_mem _ hc') hn
        rw [this] at hc'
        exact hnd.1 (List.mem_map_of_mem _ hc')
      rw [applyRen_lookup_untouched rest _ n hrest]
      exact alookup_aset_self ..
    · have hcn : c.2.1 ≠ n := by
        intro hn
        have hc0 := huniq c (List.mem_cons_self c rest) hn
        rw [hc0] at hnd
        exact hnd.1 (List.mem_map_of_mem _ hmem')
      rw [applyRen_cons]
      exact ih _ hmem' (fun c' hc' => huniq c' (List.mem_cons_of_mem _ hc'))
        (fun c' hc' => hfst c' (List.mem_cons_of_mem _ hc')) hnd.2

/-- Every old (deprecated) property name is absent from the renamed
properties. -/
theorem renameProps_lookup_old (props : List (String × JVal)) (o n : String)
    (hc : (o, n) ∈ nameConversions) :
    alookup (renameProps props) o = none := by
  rw [renameProps_eq]
  have hno : ∀ c ∈ toConvert props, c.2.1 ≠ o := by
    intro c hcm
    exact conv_new_ne_old (c.1, c.2.1) (toConvert_shape hcm).1 (o, n) hc
  cases hlk : alookup props o with
  | none => exact applyRen_lookup_none _ _ o hno hlk
  | some v =>
    refine applyRen_lookup_old_hit _ _ o hno ⟨(o, n, v), ?_, rfl⟩
    exact mem_toConvert_of (mem_of_alookup_eq_some hlk) (conv_convName (o, n) hc)

/-- The value stored under a deprecated name resurfaces under the new
name. -/
theorem renameProps_lookup_new (props : List (String × JVal)) (o n : String) (v : JVal)
    (hnd : (akeys props).Nodup) (hc : (o, n) ∈ nameConversions)
    (hv : alookup props o = some v) :
    alookup (renameProps props) n = some v := by
  rw [renameProps_eq]
  refine applyRen_lookup_new _ _ o n v
    (mem_toConvert_of (mem_of_alookup_eq_some hv) (conv_convName (o, n) hc)) ?_ ?_
    (toConvert_fst_nodup hnd)
  · intro c hcm hn
    obtain ⟨hcc, hcp⟩ := toConvert_shape hcm
    obtain ⟨c1, c2, c3⟩ := c
    simp only at hcc hcp hn
    have h1 : c1 = o := conv_new_determines_old (c1, c2) hcc (o, n) hc hn
    rw [h1] at hcp
    have hlk := alookup_eq_some_of_mem_nodup hnd hcp
    rw [hv] at hlk
    have h3 : c3 = v := by
      injection hlk with h'
      exact h'.symm
    rw [h1, hn, h3]
  · intro c hcm
    exact Ne.symm (conv_new_ne_old (o, n) hc (c.1, c.2.1) (toConvert_shape hcm).1)

/-- Property names that are neither old nor new names are untouched. -/
theorem renameProps_lookup_other (props : List (String × JVal)) (k : String)
    (hko : convName k = none)
    (hkn : ∀ o n, (o, n) ∈ nameConversions → n ≠ k) :
    alookup (renameProps props) k = alookup props k := by
  rw [renameProps_eq]
  refine applyRen_lookup_untouched _ _ k ?_
  intro c hcm
  obtain ⟨hcc, -⟩ := toConvert_shape hcm
  constructor
  · intro h
    have hcv := conv_convName (c.1, c.2.1) hcc
    rw [h, hko] at hcv
    exact Option.noConfusion hcv
  · exact hkn c.1 c.2.1 hcc

/-- Keys that are not deprecated names survive the rename. -/
theorem renameProps_preserves_other_keys (props : List (String × JVal)) (k : String)
    (hnd : (akeys props).Nodup) (hko : convName k = none) (hk : k ∈ akeys props) :
    k ∈ akeys (renameProps props) := by
  by_cases hkn : k ∈ nameConversions.map Prod.snd
  · obtain ⟨c0, hc, hck⟩ := List.mem_map.mp hkn
    obtain ⟨o, n⟩ := c0
    simp only at hck
    cases hlk : alookup props o with
    | some v =>
      rw [mem_akeys_iff, ← hck, renameProps_lookup_new props o n v hnd hc hlk]
      rfl
    | none =>
      rw [mem_akeys_iff] at hk ⊢
      rw [renameProps_eq, applyRen_lookup_untouched]
      · exact hk
      · intro c hcm
        obtain ⟨hcc, hcp⟩ := toConvert_shape hcm
        constructor
        · intro h1
          have hcv := conv_convName (c.1, c.2.1) hcc
          rw [h1, hko] at hcv
          exact Option.noConfusion hcv
        · intro h2
          have h1 : c.1 = o := by
            refine conv_new_determines_old (c.1, c.2.1) hcc (o, n) hc ?_
            simp only
            rw [h2, hck]
          rw [h1] at hcp
          have hsome := alookup_eq_some_of_mem_nodup hnd hcp
          rw [hlk] at hsome
          exact Option.noConfusion hsome
  · rw [mem_akeys_iff] at hk ⊢
    rw [renameProps_lookup_other props k hko]
    · exact hk
    · intro o n hon hnk
      exact hkn (by rw [← hnk]; exact List.mem_map_of_mem Prod.snd hon)

/-- After one pass no staged conversion remains: the second pass of the
renamer collects nothing. -/
theorem toConvert_renameProps_nil (props : List (String × JVal)) :
    toConvert (renameProps props) = [] := by
  unfold toConvert
  rw [List.filterMap_eq_nil]
  intro e he
  cases hconv : convName e.1 with
  | none => simp [hconv]
  | some c =>
    obtain ⟨hc1, hcm⟩ := convName_fst hconv
    have hkey : e.1 ∈ akeys (renameProps props) := List.mem_map_of_mem Prod.fst he
    rw [mem_akeys_iff] at hkey
    have hnone : alookup (renameProps props) e.1 = none := by
      have : ((c.1, c.2) : String × String) ∈ nameConversions := hcm
      rw [hc1] at this
      exact renameProps_lookup_old props e.1 c.2 this
    rw [hnone] at hkey
    exact absurd hkey (by simp)

theorem renameProps_idem (props : List (String × JVal)) :
    renameProps (renameProps props) = renameProps props := by
  conv_lhs => rw [renameProps_eq, toConvert_renameProps_nil, applyRen_nil]

/-- The element-wise rename applied to the secure list. -/
theorem renameOne_idem (s : String) :
    ((convName (((convName s).map Prod.snd).getD s)).map Prod.snd).getD
        (((convName s).map Prod.snd).getD s) =
      ((convName s).map Prod.snd).getD s := by
  cases hconv : convName s with
  | none => simp [hconv]
  | some c =>
    obtain ⟨hc1, hcm⟩ := convName_fst hconv
    have : convName c.2 = none := by
      rcases (by simpa [nameConversions] using hcm :
        c = ("hostname", "host") ∨ c = ("username", "user") ∨ c = ("pass", "password"))
        with h | h | h <;> rw [h] <;> rfl
    simp [hconv, this]

theorem renameSecure_idem (sec : List String) :
    renameSecure (renameSecure sec) = renameSecure sec := by
  unfold renameSecure
  rw [List.map_map]
  exact List.map_congr_left (fun s _ => renameOne_idem s)

/-- No deprecated name survives in a renamed secure list. -/
theorem renameSecure_no_old (sec : List String) (o n : String)
    (hc : (o, n) ∈ nameConversions) : o ∉ renameSecure sec := by
  unfold renameSecure
  intro hmem
  obtain ⟨s, -, heq⟩ := List.mem_map.mp hmem
  cases hconv : convName s with
  | none =>
    rw [hconv] at heq
    simp at heq
    rw [heq] at hconv
    rw [conv_convName (o, n) hc] at hconv
    exact Option.noConfusion hconv
  | some c =>
    rw [hconv] at heq
    simp at heq
    exact conv_new_ne_old (c.1, c.2) (convName_fst hconv).2 (o, n) hc heq

theorem renameProfileEntry_idem (e : String × ConfigProfile) :
    renameProfileEntry (renameProfileEntry e) = renameProfileEntry e := by
  unfold renameProfileEntry
  simp [renameProps_idem, renameSecure_idem]

theorem convertPropNames_idem (R : ConvertResult) :
    convertPropNames (convertPropNames R) = convertPropNames R := by
  unfold convertPropNames
  simp only [List.map_map]
  have hmap : List.map (renameProfileEntry ∘ renameProfileEntry) R.config.profiles =
      List.map renameProfileEntry R.config.profiles :=
    List.map_congr_left (fun e _ => renameProfileEntry_idem e)
  rw [hmap]

/-- C9: in every profile of a conversion result the renamer moves the value
of each deprecated plain-property name (hostname, username, pass) to its
current name (host, user, password; first matching rule, value preserved)
and leaves no deprecated key behind; the secure list is renamed entry-wise
with no deprecated entry left; the renaming applies to every profile of the
result, and applying the renamer a second time changes nothing. -/
theorem c9_rename_total_idempotent (R : ConvertResult)
    (hnd : ∀ e ∈ R.config.profiles, (akeys e.2.properties).Nodup) :
    (∀ e ∈ R.config.profiles, ∀ o n, (o, n) ∈ nameConversions →
      (∀ v, alookup e.2.properties o = some v →
        alookup (renameProps e.2.properties) n = some v)
      ∧ alookup (renameProps e.2.properties) o = none
      ∧ o ∉ renameSecure e.2.secure
      ∧ renameSecure e.2.secure =
          e.2.secure.map (fun s => ((convName s).map Prod.snd).getD s))
    ∧ (convertPropNames R).config.profiles = R.config.profiles.map renameProfileEntry
    ∧ convertPropNames (convertPropNames R) = convertPropNames R := by
  refine ⟨?_, rfl, convertPropNames_idem R⟩
  intro e he o n hc
  exact ⟨fun v hv => renameProps_lookup_new e.2.properties o n v (hnd e he) hc hv,
    renameProps_lookup_old e.2.properties o n hc,
    renameSecure_no_old e.2.secure o n hc,
    rfl⟩

/-- Fixture for the C9 witness. -/
def c9Result : ConvertResult :=
  { config := { configEmpty with profiles :=
      [("t_p", ⟨"t", [("hostname", JVal.vStr "x")], ["pass"]⟩)] }
  , profilesConverted := [("t", ["p"])]
  , profilesFailed := [] }

/-- C9 witness. -/
theorem c9_rename_total_idempotent_witness :
    alookup (renameProps [("hostname", JVal.vStr "x")]) "host" = some (JVal.vStr "x")
    ∧ alookup (renameProps [("hostname", JVal.vStr "x")]) "hostname" = none
    ∧ "pass" ∉ renameSecure ["pass"]
    ∧ convertPropNames (convertPropNames c9Result) = convertPropNames c9Result := by
  have h := c9_rename_total_idempotent c9Result (by decide)
  have h1 := h.1 ("t_p", ⟨"t", [("hostname", JVal.vStr "x")], ["pass"]⟩) (by decide)
  exact ⟨(h1 "hostname" "host" (by decide)).1 (JVal.vStr "x") rfl,
    (h1 "hostname" "host" (by decide)).2.1,
    (h1 "pass" "password" (by decide)).2.2.1,
    h.2.2⟩

/-- C10: when a profile's properties contain both a deprecated name and its
current name, the renamer deletes the deprecated key and overwrites the
value stored under the current name with the deprecated key's value, losing
the value previously stored under the current name. -/
theorem c10_rename_overwrites_current (props : List (String × JVal)) (o n : String)
    (a b : JVal) (hnd : (akeys props).Nodup) (hc : (o, n) ∈ nameConversions)
    (ho : alookup props o = some a) (hn : alookup props n = some b) (hab : a ≠ b) :
    alookup (renameProps props) n = some a
    ∧ alookup (renameProps props) o = none
    ∧ alookup (renameProps props) n ≠ some b := by
  have h1 := renameProps_lookup_new props o n a hnd hc ho
  refine ⟨h1, renameProps_lookup_old props o n hc, ?_⟩
  rw [h1]
  intro hcontra
  exact hab (by injection hcontra)

/-- C10 witness. -/
theorem c10_rename_overwrites_current_witness :
    alookup (renameProps [("hostname", JVal.vStr "x"), ("host", JVal.vStr "y")]) "host" =
      some (JVal.vStr "x")
    ∧ alookup (renameProps [("hostname", JVal.vStr "x"), ("host", JVal.vStr "y")]) "hostname" =
      none := by
  have h := c10_rename_overwrites_current
    [("hostname", JVal.vStr "x"), ("host", JVal.vStr "y")] "hostname" "host"
    (JVal.vStr "x") (JVal.vStr "y") (by decide) (by decide) rfl rfl (by decide)
  exact ⟨h.1, h.2.1⟩

/-! ## Hoist lemmas -/

theorem alookup_spreadPrepend_self (old : List (String × JVal)) (k : String) (v : JVal) :
    alookup (spreadPrepend old k v) k = some ((alookup old k).getD v) := by
  unfold spreadPrepend
  cases h : alookup old k with
  | some w => simp [alookup]
  | none => simp [alookup]

theorem alookup_spreadPrepend_ne (old : List (String × JVal)) {k k' : String} (v : JVal)
    (h : k' ≠ k) :
    alookup (spreadPrepend old k v) k' = alookup old k' := by
  unfold spreadPrepend
  cases halt : alookup old k with
  | some w =>
    have h1 : alookup ((k, w) :: adel old k) k' =
        if k = k' then some w else alookup (adel old k) k' := rfl
    rw [h1, if_neg (Ne.symm h), alookup_adel_ne _ h]
  | none =>
    have h1 : alookup ((k, v) :: old) k' =
        if k = k' then some v else alookup old k' := rfl
    rw [h1, if_neg (Ne.symm h)]

theorem entryStep_fst (b : String) (kv : String × JVal) (e : String × ConfigProfile) :
    (entryStep b kv e).1 = e.1 := rfl

theorem entryStep_type (b : String) (kv : String × JVal) (e : String × ConfigProfile) :
    (entryStep b kv e).2.type = e.2.type := by
  obtain ⟨key, pt, pp, ps⟩ := e
  unfold entryStep
  dsimp only
  split <;> split <;> rfl

theorem entryStep_lookup_child (b : String) (kv : String × JVal) (e : String × ConfigProfile)
    (ht : e.2.type ≠ b) (k : String) :
    alookup (entryStep b kv e).2.properties k =
      if k = kv.1 then none else alookup e.2.properties k := by
  obtain ⟨k0, v0⟩ := kv
  obtain ⟨key, pt, pp, ps⟩ := e
  simp only at ht ⊢
  unfold entryStep
  dsimp only
  by_cases h1 : key = b
  · rw [if_pos h1]
    dsimp only
    rw [if_pos (show pt ≠ b from ht)]
    dsimp only
    by_cases hk : k = k0
    · subst hk
      rw [if_pos rfl]
      exact alookup_adel_self ..
    · rw [if_neg hk, alookup_adel_ne _ hk, alookup_spreadPrepend_ne _ _ hk]
  · rw [if_neg h1]
    dsimp only
    rw [if_pos (show pt ≠ b from ht)]
    dsimp only
    by_cases hk : k = k0
    · subst hk
      rw [if_pos rfl]
      exact alookup_adel_self ..
    · rw [if_neg hk, alookup_adel_ne _ hk]

theorem entryStep_lookup_base (b : String) (kv : String × JVal) (e : String × ConfigProfile)
    (hk : e.1 = b) (ht : e.2.type = b) (k : String) :
    alookup (entryStep b kv e).2.properties k =
      if k = kv.1 then some ((alookup e.2.properties kv.1).getD kv.2)
      else alookup e.2.properties k := by
  obtain ⟨k0, v0⟩ := kv
  obtain ⟨key, pt, pp, ps⟩ := e
  simp only at hk ht ⊢
  unfold entryStep
  dsimp only
  rw [if_pos hk]
  dsimp only
  rw [if_neg (show ¬pt ≠ b from by simpa using ht)]
  dsimp only
  by_cases hkk : k = k0
  · subst hkk
    rw [if_pos rfl]
    exact alookup_spreadPrepend_self pp k v0
  · rw [if_neg hkk]
    exact alookup_spreadPrepend_ne _ _ hkk

theorem entryStep_id (b : String) (kv : String × JVal) (e : String × ConfigProfile)
    (hk : e.1 ≠ b) (ht : e.2.type = b) : entryStep b kv e = e := by
  obtain ⟨k0, v0⟩ := kv
  obtain ⟨key, pt, pp, ps⟩ := e
  simp only at hk ht
  unfold entryStep
  dsimp only
  rw [if_neg hk]
  dsimp only
  rw [if_neg (show ¬pt ≠ b from by simpa using ht)]

/-- One profiles-object entry after the whole hoist loop. -/
def entryHoist (b : String) (pairs : List (String × JVal)) (e : String × ConfigProfile) :
    String × ConfigProfile :=
  pairs.foldl (fun e kv => entryStep b kv e) e

theorem entryHoist_nil (b : String) (e : String × ConfigProfile) :
    entryHoist b [] e = e := rfl

theorem entryHoist_cons (b : String) (kv : String × JVal) (rest : List (String × JVal))
    (e : String × ConfigProfile) :
    entryHoist b (kv :: rest) e = entryHoist b rest (entryStep b kv e) := rfl

theorem entryHoist_fst (b : String) (pairs : List (String × JVal)) (e : String × ConfigProfile) :
    (entryHoist b pairs e).1 = e.1 := by
  induction pairs generalizing e with
  | nil => rfl
  | cons kv rest ih => rw [entryHoist_cons, ih, entryStep_fst]

theorem entryHoist_type (b : String) (pairs : List (String × JVal)) (e : String × ConfigProfile) :
    (entryHoist b pairs e).2.type = e.2.type := by
  induction pairs generalizing e with
  | nil => rfl
  | cons kv rest ih => rw [entryHoist_cons, ih, entryStep_type]

theorem entryHoist_lookup_child (b : String) (pairs : List (String × JVal))
    (e : String × ConfigProfile) (ht : e.2.type ≠ b) (k : String) :
    alookup (entryHoist b pairs e).2.properties k =
      if k ∈ pairs.map Prod.fst then none else alookup e.2.properties k := by
  induction pairs generalizing e with
  | nil => simp [entryHoist_nil]
  | cons kv rest ih =>
    rw [entryHoist_cons, ih _ (by rw [entryStep_type]; exact ht),
        entryStep_lookup_child b kv e ht k]
    by_cases h1 : k ∈ rest.map Prod.fst
    · simp [h1]
    · by_cases h2 : k = kv.1
      · simp [h1, h2]
      · simp [h1, h2]

theorem entryHoist_lookup_base_other (b : String) (pairs : List (String × JVal))
    (e : String × ConfigProfile) (hk : e.1 = b) (ht : e.2.type = b) (k : String)
    (hnotin : k ∉ pairs.map Prod.fst) :
    alookup (entryHoist b pairs e).2.properties k = alookup e.2.properties k := by
  induction pairs generalizing e with
  | nil => rfl
  | cons kv rest ih =>
    rw [List.map_cons, List.mem_cons] at hnotin
    rw [entryHoist_cons,
        ih (entryStep b kv e) (by rw [entryStep_fst]; exact hk)
          (by rw [entryStep_type]; exact ht) (fun h => hnotin (Or.inr h)),
        entryStep_lookup_base b kv e hk ht k,
        if_neg (fun h => hnotin (Or.inl h))]

theorem entryHoist_lookup_base_hit (b : String) (pairs : List (String × JVal))
    (e : String × ConfigProfile) (hk : e.1 = b) (ht : e.2.type = b)
    (hnd : (pairs.map Prod.fst).Nodup) (k : String) (v : JVal) (hmem : (k, v) ∈ pairs) :
    alookup (entryHoist b pairs e).2.properties k =
      some ((alookup e.2.properties k).getD v) := by
  induction pairs generalizing e with
  | nil => simp at hmem
  | cons kv rest ih =>
    rw [List.map_cons, List.nodup_cons] at hnd
    rcases List.mem_cons.mp hmem with heq | hmem'
    · rw [← heq] at hnd ⊢
      rw [entryHoist_cons,
          entryHoist_lookup_base_other b rest _ (by rw [entryStep_fst]; exact hk)
            (by rw [entryStep_type]; exact ht) k hnd.1,
          entryStep_lookup_base b (k, v) e hk ht k, if_pos rfl]
    · have hne : k ≠ kv.1 := by
        intro hh
        exact hnd.1 (hh ▸ List.mem_map_of_mem (fun c => c.1) hmem')
      rw [entryHoist_cons]
      rw [ih (entryStep b kv e) (by rw [entryStep_fst]; exact hk)
            (by rw [entryStep_type]; exact ht) hnd.2 hmem',
          entryStep_lookup_base b kv e hk ht k, if_neg hne]

theorem entryHoist_id (b : String) (pairs : List (String × JVal))
    (e : String × ConfigProfile) (hk : e.1 ≠ b) (ht : e.2.type = b) :
    entryHoist b pairs e = e := by
  induction pairs generalizing e with
  | nil => rfl
  | cons kv rest ih =>
    rw [entryHoist_cons, entryStep_id b kv e hk ht]
    exact ih _ hk ht

/-- The candidate loop, folded over the whole profiles object, acts
entry-wise. -/
theorem foldl_applyHoist (b : String) (pairs : List (String × JVal))
    (ps : List (String × ConfigProfile)) :
    pairs.foldl (fun ps kv => applyHoist b kv ps) ps = ps.map (entryHoist b pairs) := by
  induction pairs generalizing ps with
  | nil =>
    show ps = ps.map (fun e => e)
    rw [List.map_id']
  | cons kv rest ih =>
    rw [List.foldl_cons]
    show rest.foldl (fun ps kv => applyHoist b kv ps) (applyHoist b kv ps) = _
    rw [ih]
    unfold applyHoist
    rw [List.map_map]
    rfl

theorem hoistTemplateProperties_profiles_eq (profiles : List (String × ConfigProfile))
    (b : String) :
    (hoistTemplateProperties profiles b).1 = profiles.map (entryHoist b (hoistPairs profiles b)) := by
  unfold hoistTemplateProperties
  exact foldl_applyHoist b _ profiles

theorem hoistTemplateProperties_snd (profiles : List (String × ConfigProfile)) (b : String) :
    (hoistTemplateProperties profiles b).2 = duplicateProps (childProfiles profiles b) := rfl

/-- Lookup in a mapped profiles object whose mapping preserves keys. -/
theorem alookup_map_keyfix {β γ : Type} {F : (String × β) → String × γ}
    (hF : ∀ e, (F e).1 = e.1) (ps : List (String × β)) (key : String) :
    alookup (ps.map F) key = Option.map (fun e => (F e).2) (ps.find? (fun e => e.1 == key)) := by
  induction ps with
  | nil => rfl
  | cons e rest ih =>
    rw [List.map_cons]
    have h1 : alookup (F e :: rest.map F) key =
        if (F e).1 = key then some (F e).2 else alookup (rest.map F) key := rfl
    rw [h1, hF e]
    by_cases h : e.1 = key
    · rw [if_pos h, List.find?_cons_of_pos _ (by simp [h])]
      rfl
    · rw [if_neg h, List.find?_cons_of_neg _ (by simp [h]), ih]

theorem alookup_eq_find? (ps : List (String × α)) (key : String) :
    alookup ps key = Option.map Prod.snd (ps.find? (fun e => e.1 == key)) := by
  induction ps with
  | nil => rfl
  | cons e rest ih =>
    have h1 : alookup (e :: rest) key =
        if e.1 = key then some e.2 else alookup rest key := by
      obtain ⟨k0, v0⟩ := e
      rfl
    rw [h1]
    by_cases h : e.1 = key
    · rw [if_pos h, List.find?_cons_of_pos _ (by simp [h])]
      rfl
    · rw [if_neg h, List.find?_cons_of_neg _ (by simp [h]), ih]

theorem duplicateProps_nodup (children : List ConfigProfile) :
    (duplicateProps children).Nodup :=
  (nodup_firstSeen _).filter _

theorem hoistPairs_fst (profiles : List (String × ConfigProfile)) (b : String) :
    (hoistPairs profiles b).map Prod.fst = duplicateProps (childProfiles profiles b) := by
  unfold hoistPairs
  rw [List.map_map]
  exact List.map_id' _

theorem hoistPairs_fst_nodup (profiles : List (String × ConfigProfile)) (b : String) :
    ((hoistPairs profiles b).map Prod.fst).Nodup := by
  rw [hoistPairs_fst]
  exact duplicateProps_nodup _

theorem mem_flattenedKeys_iff (children : List ConfigProfile) (k : String) :
    k ∈ flattenedKeys children ↔ propValues children k ≠ [] := by
  unfold flattenedKeys propValues
  rw [mem_firstSeen, List.mem_flatten]
  constructor
  · rintro ⟨l, hl, hkl⟩
    obtain ⟨p, hp, rfl⟩ := List.mem_map.mp hl
    intro hnil
    rw [List.filterMap_eq_nil] at hnil
    have h1 := hnil p hp
    have h2 := (mem_akeys_iff _ k).mp hkl
    rw [h1] at h2
    exact absurd h2 (by simp)
  · intro hne
    have hx : ∃ p ∈ children, (alookup p.properties k).isSome := by
      by_contra hall
      push_neg at hall
      refine hne (List.filterMap_eq_nil.mpr ?_)
      intro p hp
      have := hall p hp
      cases h : alookup p.properties k with
      | none => rfl
      | some v => rw [h] at this; exact absurd rfl this
    obtain ⟨p, hp, hps⟩ := hx
    exact ⟨akeys p.properties, List.mem_map_of_mem _ hp, (mem_akeys_iff _ k).mpr hps⟩

theorem mem_duplicateProps_iff (children : List ConfigProfile) (k : String) :
    k ∈ duplicateProps children ↔
      (propValues children k).length > 1 ∧
        ∀ v ∈ propValues children k, ∀ w ∈ propValues children k, v = w := by
  unfold duplicateProps
  rw [List.mem_filter, mem_flattenedKeys_iff]
  constructor
  · rintro ⟨hne, hpred⟩
    simp only [Bool.and_eq_true, decide_eq_true_eq] at hpred
    obtain ⟨h1, h2⟩ := hpred
    refine ⟨h1, ?_⟩
    obtain ⟨x, -, hall⟩ := (firstSeen_length_one_iff _).mp h2
    intro v hv w hw
    rw [hall v hv, hall w hw]
  · rintro ⟨h1, hall⟩
    have hne : propValues children k ≠ [] := by
      intro h
      rw [h] at h1
      simp at h1
    refine ⟨hne, ?_⟩
    simp only [Bool.and_eq_true, decide_eq_true_eq]
    refine ⟨h1, (firstSeen_length_one_iff _).mpr ?_⟩
    obtain ⟨x, hx⟩ := List.exists_mem_of_ne_nil _ hne
    exact ⟨x, hne, fun y hy => hall y hy x hx⟩

theorem filterMap_congr' {α β : Type} (l : List α) {f g : α → Option β}
    (h : ∀ a ∈ l, f a = g a) : l.filterMap f = l.filterMap g := by
  induction l with
  | nil => rfl
  | cons a rest ih =>
    rw [List.filterMap_cons, List.filterMap_cons,
        h a (List.mem_cons_self a rest), ih (fun a ha => h a (List.mem_cons_of_mem _ ha))]

theorem propValues_orig (profiles : List (String × ConfigProfile)) (b : String) (k : String) :
    propValues (childProfiles profiles b) k =
      (profiles.filter (fun e => e.2.type != b)).filterMap
        (fun e => alookup e.2.properties k) := by
  unfold childProfiles propValues
  rw [List.filter_map, List.filterMap_map]
  rfl

theorem propValues_hoisted (profiles : List (String × ConfigProfile)) (b : String)
    (pairs : List (String × JVal)) (k : String) :
    propValues (childProfiles (profiles.map (entryHoist b pairs)) b) k =
      (profiles.filter (fun e => e.2.type != b)).filterMap
        (fun e => alookup (entryHoist b pairs e).2.properties k) := by
  unfold childProfiles propValues
  rw [List.map_map, List.filter_map, List.filterMap_map]
  have hfe : (profiles.filter ((fun p => p.type != b) ∘ Prod.snd ∘ entryHoist b pairs)) =
      (profiles.filter (fun e => e.2.type != b)) := by
    apply List.filter_congr
    intro e he
    simp only [Function.comp_apply, entryHoist_type]
  rw [hfe]
  rfl

/-- The values of a property across the non-base profiles after one hoist
run: empty for every candidate, unchanged for every other name. -/
theorem propValues_after_hoist (profiles : List (String × ConfigProfile)) (b : String)
    (k : String) :
    propValues (childProfiles (hoistTemplateProperties profiles b).1 b) k =
      if k ∈ duplicateProps (childProfiles profiles b) then []
      else propValues (childProfiles profiles b) k := by
  rw [hoistTemplateProperties_profiles_eq, propValues_hoisted]
  by_cases hk : k ∈ duplicateProps (childProfiles profiles b)
  · rw [if_pos hk]
    rw [show ((profiles.filter (fun e => e.2.type != b)).filterMap
        (fun e => alookup (entryHoist b (hoistPairs profiles b) e).2.properties k)) =
        ((profiles.filter (fun e => e.2.type != b)).filterMap
          (fun _ => (none : Option JVal))) from ?_]
    · exact List.filterMap_eq_nil.mpr (fun a _ => rfl)
    · apply filterMap_congr'
      intro e he
      have ht : e.2.type ≠ b := by
        have := List.of_mem_filter he
        simpa using this
      rw [entryHoist_lookup_child b _ e ht k, if_pos (by rw [hoistPairs_fst]; exact hk)]
  · rw [if_neg hk, propValues_orig]
    apply filterMap_congr'
    intro e he
    have ht : e.2.type ≠ b := by
      have := List.of_mem_filter he
      simpa using this
    rw [entryHoist_lookup_child b _ e ht k, if_neg (by rw [hoistPairs_fst]; exact hk)]

/-- C8: hoisting is idempotent — a second run returns no candidates and
leaves the profiles object unchanged. -/
theorem c8_hoist_idempotent (profiles : List (String × ConfigProfile)) (b : String)
    (hbase : (alookup profiles b).isSome) :
    (hoistTemplateProperties (hoistTemplateProperties profiles b).1 b).2 = []
    ∧ (hoistTemplateProperties (hoistTemplateProperties profiles b).1 b).1 =
        (hoistTemplateProperties profiles b).1 := by
  have hdups2 : duplicateProps (childProfiles (hoistTemplateProperties profiles b).1 b) = [] := by
    rw [List.eq_nil_iff_forall_not_mem]
    intro k hk
    rw [mem_duplicateProps_iff, propValues_after_hoist] at hk
    by_cases hmem : k ∈ duplicateProps (childProfiles profiles b)
    · rw [if_pos hmem] at hk
      simp at hk
    · rw [if_neg hmem] at hk
      exact hmem ((mem_duplicateProps_iff _ k).mpr hk)
  refine ⟨hdups2, ?_⟩
  have hp2 : hoistPairs (hoistTemplateProperties profiles b).1 b = [] := by
    unfold hoistPairs
    rw [hdups2]
    rfl
  show (hoistPairs (hoistTemplateProperties profiles b).1 b).foldl _ _ = _
  rw [hp2]
  rfl

/-- C8 witness. -/
theorem c8_hoist_idempotent_witness :
    (hoistTemplateProperties (hoistTemplateProperties c2Profiles "base").1 "base").2 = []
    ∧ (hoistTemplateProperties (hoistTemplateProperties c2Profiles "base").1 "base").1 =
        (hoistTemplateProperties c2Profiles "base").1 :=
  c8_hoist_idempotent c2Profiles "base" rfl

theorem alookup_find? {ps : List (String × α)} {key : String} {p : α}
    (h : alookup ps key = some p) :
    ∃ e, ps.find? (fun e => e.1 == key) = some e ∧ e.1 = key ∧ e.2 = p := by
  rw [alookup_eq_find?] at h
  cases hf : ps.find? (fun e => e.1 == key) with
  | none => rw [hf] at h; exact absurd h (by simp)
  | some e =>
    rw [hf] at h
    simp only [Option.map_some'] at h
    have h1 := List.find?_some hf
    exact ⟨e, rfl, by simpa using h1, by injection h⟩

/-- C2 (amended): a property name is hoisted iff it appears in more than
one non-base profile with all observed values pairwise equal; every
candidate is deleted from every non-base-typed profile; the base profile
receives, for each candidate, the shared value only when it did not already
define that property — an existing base value is retained; and for a
non-candidate every profile's binding is unchanged. -/
theorem c2_amended (profiles : List (String × ConfigProfile)) (b : String)
    (bp : ConfigProfile) (hb : alookup profiles b = some bp) (hbt : bp.type = b) :
    (∀ k, k ∈ (hoistTemplateProperties profiles b).2 ↔
      ((propValues (childProfiles profiles b) k).length > 1 ∧
        ∀ v ∈ propValues (childProfiles profiles b) k,
          ∀ w ∈ propValues (childProfiles profiles b) k, v = w))
    ∧ (∀ k ∈ (hoistTemplateProperties profiles b).2, ∀ key p',
        alookup (hoistTemplateProperties profiles b).1 key = some p' → p'.type ≠ b →
          alookup p'.properties k = none)
    ∧ (∃ bp', alookup (hoistTemplateProperties profiles b).1 b = some bp' ∧ bp'.type = b ∧
        ∀ k ∈ (hoistTemplateProperties profiles b).2,
          alookup bp'.properties k =
            some ((alookup bp.properties k).getD
              ((propValues (childProfiles profiles b) k).headD JVal.vNull))
          ∧ ∀ v ∈ propValues (childProfiles profiles b) k,
              v = (propValues (childProfiles profiles b) k).headD JVal.vNull)
    ∧ (∀ k, k ∉ (hoistTemplateProperties profiles b).2 → ∀ key p',
        alookup profiles key = some p' →
          ∃ p'', alookup (hoistTemplateProperties profiles b).1 key = some p''
            ∧ p''.type = p'.type ∧ alookup p''.properties k = alookup p'.properties k) := by
  have hprof := hoistTemplateProperties_profiles_eq profiles b
  have hsnd := hoistTemplateProperties_snd profiles b
  refine ⟨?_, ?_, ?_, ?_⟩
  · intro k
    rw [hsnd]
    exact mem_duplicateProps_iff _ k
  · intro k hk key p' hp' htype
    rw [hprof, alookup_map_keyfix (entryHoist_fst b (hoistPairs profiles b))] at hp'
    cases hf : profiles.find? (fun e => e.1 == key) with
    | none => rw [hf] at hp'; exact absurd hp' (by simp)
    | some e =>
      rw [hf] at hp'
      simp only [Option.map_some'] at hp'
      have hpe : (entryHoist b (hoistPairs profiles b) e).2 = p' := by injection hp'
      have ht : e.2.type ≠ b := by
        rw [← entryHoist_type b (hoistPairs profiles b) e, hpe]
        exact htype
      rw [← hpe, entryHoist_lookup_child b _ e ht k,
          if_pos (by rw [hoistPairs_fst]; rw [hsnd] at hk; exact hk)]
  · obtain ⟨e0, hf0, he0key, he0val⟩ := alookup_find? hb
    have hlk : alookup (hoistTemplateProperties profiles b).1 b =
        some (entryHoist b (hoistPairs profiles b) e0).2 := by
      rw [hprof, alookup_map_keyfix (entryHoist_fst b (hoistPairs profiles b)), hf0]
      rfl
    refine ⟨(entryHoist b (hoistPairs profiles b) e0).2, hlk, ?_, ?_⟩
    · rw [entryHoist_type, he0val, hbt]
    · intro k hk
      rw [hsnd] at hk
      have hpair : (k, (propValues (childProfiles profiles b) k).headD JVal.vNull) ∈
          hoistPairs profiles b := by
        unfold hoistPairs
        exact List.mem_map_of_mem _ hk
      constructor
      · rw [entryHoist_lookup_base_hit b (hoistPairs profiles b) e0 he0key
            (by rw [he0val]; exact hbt) (hoistPairs_fst_nodup profiles b) k _ hpair, he0val]
      · obtain ⟨hlen, hall⟩ := (mem_duplicateProps_iff _ k).mp hk
        intro v hv
        cases hvs : propValues (childProfiles profiles b) k with
        | nil => rw [hvs] at hv; simp at hv
        | cons x xs =>
          rw [hvs] at hv hall
          exact hall v hv x (List.mem_cons_self x xs)
  · intro k hk key p' hp'
    rw [hsnd] at hk
    obtain ⟨e, hf, hekey, heval⟩ := alookup_find? hp'
    have hlk : alookup (hoistTemplateProperties profiles b).1 key =
        some (entryHoist b (hoistPairs profiles b) e).2 := by
      rw [hprof, alookup_map_keyfix (entryHoist_fst b (hoistPairs profiles b)), hf]
      rfl
    refine ⟨(entryHoist b (hoistPairs profiles b) e).2, hlk, ?_, ?_⟩
    · rw [entryHoist_type, heval]
    · by_cases ht : e.2.type = b
      · by_cases hkb : e.1 = b
        · rw [entryHoist_lookup_base_other b (hoistPairs profiles b) e hkb ht k
              (by rw [hoistPairs_fst]; exact hk), heval]
        · rw [entryHoist_id b (hoistPairs profiles b) e hkb ht, heval]
      · rw [entryHoist_lookup_child b _ e ht k,
            if_neg (by rw [hoistPairs_fst]; exact hk), heval]

/-- Fixture for the C2 witness: two children share property "a" with the
identical value and the base profile does not define it. -/
def c2FreshProfiles : List (String × ConfigProfile) :=
  [("base", ⟨"base", [], []⟩),
   ("p1", ⟨"t1", [("a", JVal.vNum 1)], []⟩),
   ("p2", ⟨"t2", [("a", JVal.vNum 1)], []⟩)]

/-- C2 witness. -/
theorem c2_amended_witness :
    "a" ∈ (hoistTemplateProperties c2FreshProfiles "base").2
    ∧ alookup (hoistTemplateProperties c2FreshProfiles "base").1 "base" =
        some ⟨"base", [("a", JVal.vNum 1)], []⟩ := by
  have h := c2_amended c2FreshProfiles "base" ⟨"base", [], []⟩ rfl rfl
  have hmem : "a" ∈ (hoistTemplateProperties c2FreshProfiles "base").2 :=
    (h.1 "a").mpr (by decide)
  refine ⟨hmem, by rfl⟩

/-! ## Build lemmas -/

theorem gvbStep_calls_mono (f : String → SchemaProp → Option JVal) (hoisted : List String)
    (schema : List (String × SchemaProp)) :
    ∀ acc : (List (String × ConfigProfile)) × List String, ∀ c ∈ acc.2,
      c ∈ (schema.foldl (gvbStep f hoisted) acc).2 := by
  induction schema with
  | nil => exact fun acc c hc => hc
  | cons e rest ih =>
    intro acc c hc
    rw [List.foldl_cons]
    apply ih
    unfold gvbStep
    split
    · split
      · exact List.mem_append_left _ hc
      · exact List.mem_append_left _ hc
    · exact hc

theorem lodashSetBaseProp_lookup_self (ps : List (String × ConfigProfile)) (k : String)
    (v : JVal) :
    ∃ p, alookup (lodashSetBaseProp ps k v) "base" = some p ∧
         alookup p.properties k = some v := by
  unfold lodashSetBaseProp
  cases h : alookup ps "base" with
  | some p => exact ⟨_, alookup_aset_self .., alookup_aset_self ..⟩
  | none =>
    refine ⟨_, alookup_aset_self .., ?_⟩
    show alookup [(k, v)] k = some v
    simp [alookup]

theorem lodashSetBaseProp_lookup_other (ps : List (String × ConfigProfile)) (k' : String)
    (v' : JVal) (k : String) (hne : k ≠ k') (p : ConfigProfile)
    (hp : alookup ps "base" = some p) :
    ∃ q, alookup (lodashSetBaseProp ps k' v') "base" = some q ∧
         alookup q.properties k = alookup p.properties k := by
  unfold lodashSetBaseProp
  rw [hp]
  exact ⟨_, alookup_aset_self .., alookup_aset_ne _ _ hne⟩

theorem gvb_fold_base_stable (f : String → SchemaProp → Option JVal) (hoisted : List String)
    (schema : List (String × SchemaProp)) (k : String) (val : JVal)
    (hnot : k ∉ schema.map Prod.fst) :
    ∀ acc : (List (String × ConfigProfile)) × List String,
      (∃ p, alookup acc.1 "base" = some p ∧ alookup p.properties k = some val) →
      ∃ p, alookup ((schema.foldl (gvbStep f hoisted) acc).1) "base" = some p ∧
           alookup p.properties k = some val := by
  induction schema with
  | nil => exact fun acc h => h
  | cons e rest ih =>
    intro acc h
    rw [List.map_cons, List.mem_cons] at hnot
    rw [List.foldl_cons]
    apply ih (fun hh => hnot (Or.inr hh))
    unfold gvbStep
    split
    · split
      · obtain ⟨p, hp, hk⟩ := h
        obtain ⟨q, hq, hqk⟩ := lodashSetBaseProp_lookup_other acc.1 e.1 _ k
          (fun hh => hnot (Or.inl hh)) p hp
        exact ⟨q, hq, by rw [hqk]; exact hk⟩
      · exact h
    · exact h

theorem gvb_fold_main (f : String → SchemaProp → Option JVal) (hoisted : List String)
    (schema : List (String × SchemaProp)) (hnd : (schema.map Prod.fst).Nodup)
    (k : String) (v : SchemaProp) (hkv : alookup schema k = some v)
    (hcond : (hoisted.contains k || (v.includeInTemplate && v.secure)) = true) :
    ∀ acc : (List (String × ConfigProfile)) × List String,
      k ∈ (schema.foldl (gvbStep f hoisted) acc).2
      ∧ ∀ val, f k v = some val →
        ∃ p, alookup ((schema.foldl (gvbStep f hoisted) acc).1) "base" = some p ∧
             alookup p.properties k = some val := by
  induction schema with
  | nil => exact absurd hkv (by simp [alookup])
  | cons e rest ih =>
    intro acc
    rw [List.map_cons, List.nodup_cons] at hnd
    by_cases hk0 : e.1 = k
    · have hv : v = e.2 := by
        have h1 : alookup (e :: rest) k = if e.1 = k then some e.2 else alookup rest k := by
          obtain ⟨k0, v0⟩ := e
          rfl
        rw [h1, if_pos hk0] at hkv
        injection hkv with hh
        exact hh.symm
      have hcond' : (hoisted.contains e.1 || (e.2.includeInTemplate && e.2.secure)) = true := by
        rw [hk0, ← hv]
        exact hcond
      rw [List.foldl_cons]
      constructor
      · apply gvbStep_calls_mono
        unfold gvbStep
        rw [if_pos hcond']
        split
        · exact List.mem_append_right _ (by rw [hk0]; exact List.mem_singleton.mpr rfl)
        · exact List.mem_append_right _ (by rw [hk0]; exact List.mem_singleton.mpr rfl)
      · intro val hval
        apply gvb_fold_base_stable f hoisted rest k val (by rw [← hk0]; exact hnd.1)
        unfold gvbStep
        rw [if_pos hcond']
        have hfe : f e.1 e.2 = some val := by
          rw [hk0, ← hv]
          exact hval
        rw [hfe]
        dsimp only
        rw [hk0]
        exact lodashSetBaseProp_lookup_self acc.1 k val
    · have hkv' : alookup rest k = some v := by
        have h1 : alookup (e :: rest) k = if e.1 = k then some e.2 else alookup rest k := by
          obtain ⟨k0, v0⟩ := e
          rfl
        rw [h1, if_neg hk0] at hkv
        exact hkv
      rw [List.foldl_cons]
      exact ih hnd.2 hkv' _

/-- C3 (amended): with a designated base profile and a supplied
`getValueBack`, the callback is invoked for every base-schema property that
was hoisted or is a secure template property, and every non-null result is
written into the properties of the profile stored under the literal key
"base" (a stub profile is created there when absent) — not under the
designated base profile type's key. -/
theorem c3_amended (impConfig : ImperativeConfig) (opts : ConfigBuilderOpts)
    (bp : ProfileDecl) (f : String → SchemaProp → Option JVal)
    (hbp : impConfig.baseProfile = some bp) (hgvb : opts.getValueBack = some f)
    (hnd : (bp.schema.map Prod.fst).Nodup) :
    ∀ k v, alookup bp.schema k = some v →
      ((build impConfig opts).hoisted.contains k || (v.includeInTemplate && v.secure)) = true →
      k ∈ (build impConfig opts).gvbCalls
      ∧ ∀ val, f k v = some val →
        ∃ p, alookup (build impConfig opts).config.profiles "base" = some p ∧
             alookup p.properties k = some val := by
  intro k v hkv hcond
  obtain ⟨decls, base⟩ := impConfig
  obtain ⟨pop, gvb⟩ := opts
  simp only at hbp hgvb
  subst hbp
  subst hgvb
  simp only [build] at hcond ⊢
  exact gvb_fold_main f _ bp.schema hnd k v hkv hcond _

/-- A base profile declaration actually named "base", for the C3 witness. -/
def c3bDecl : ProfileDecl :=
  ⟨"base", [("tok", ⟨["string"], true, true, none⟩)]⟩

/-- C3 witness. -/
theorem c3_amended_witness :
    "tok" ∈ (build ⟨[c3bDecl], some c3bDecl⟩ c3Opts).gvbCalls :=
  (c3_amended ⟨[c3bDecl], some c3bDecl⟩ c3Opts c3bDecl
    (fun _ _ => some (JVal.vStr "LIVE")) rfl rfl (by decide)
    "tok" ⟨["string"], true, true, none⟩ rfl (by rfl)).1

/-! ## Secure/properties partition lemmas (C1) -/

theorem mem_akeys_aset (m : List (String × α)) (k : String) (v : α) (k' : String) :
    k' ∈ akeys (aset m k v) ↔ k' ∈ akeys m ∨ k' = k := by
  rw [mem_akeys_iff]
  by_cases h : k' = k
  · subst h
    rw [alookup_aset_self]
    simp
  · rw [alookup_aset_ne _ _ h, ← mem_akeys_iff]
    simp [h]

theorem mem_akeys_adel (m : List (String × α)) (k : String) (k' : String) :
    k' ∈ akeys (adel m k) ↔ k' ∈ akeys m ∧ k' ≠ k := by
  rw [mem_akeys_iff]
  by_cases h : k' = k
  · subst h
    rw [alookup_adel_self]
    simp
  · rw [alookup_adel_ne _ h, ← mem_akeys_iff]
    simp [h]

theorem nodup_akeys_aset (m : List (String × α)) (k : String) (v : α)
    (h : (akeys m).Nodup) : (akeys (aset m k v)).Nodup := by
  induction m with
  | nil => simp [aset, akeys]
  | cons e rest ih =>
    obtain ⟨k0, v0⟩ := e
    simp only [akeys, List.map_cons, List.nodup_cons] at h
    have hred : aset ((k0, v0) :: rest) k v =
        if k0 = k then (k, v) :: rest else (k0, v0) :: aset rest k v := rfl
    rw [hred]
    by_cases h0 : k0 = k
    · rw [if_pos h0]
      subst h0
      simp only [akeys, List.map_cons, List.nodup_cons]
      exact h
    · rw [if_neg h0]
      simp only [akeys, List.map_cons, List.nodup_cons]
      refine ⟨?_, ih h.2⟩
      intro hmem
      rw [show List.map Prod.fst (aset rest k v) = akeys (aset rest k v) from rfl,
          mem_akeys_aset] at hmem
      rcases hmem with hmem | hmem
      · exact h.1 hmem
      · exact h0 hmem

theorem nodup_akeys_adel (m : List (String × α)) (k : String)
    (h : (akeys m).Nodup) : (akeys (adel m k)).Nodup := by
  induction m with
  | nil => simp [adel, akeys]
  | cons e rest ih =>
    obtain ⟨k0, v0⟩ := e
    simp only [akeys, List.map_cons, List.nodup_cons] at h
    have hred : adel ((k0, v0) :: rest) k =
        if k0 = k then adel rest k else (k0, v0) :: adel rest k := rfl
    rw [hred]
    by_cases h0 : k0 = k
    · rw [if_pos h0]
      exact ih h.2
    · rw [if_neg h0]
      simp only [akeys, List.map_cons, List.nodup_cons]
      refine ⟨?_, ih h.2⟩
      intro hmem
      rw [show List.map Prod.fst (adel rest k) = akeys (adel rest k) from rfl,
          mem_akeys_adel] at hmem
      exact h.1 hmem.1

/-- Invariant of the per-profile secure-substitution loop: distinct keys
stay distinct, and every name recorded as secure is a key of the rewritten
properties. -/
theorem convertPropsLoop_inv (env : ConvertEnv) (ptype pname : String)
    (entries : List (String × JVal)) :
    ∀ acc : List (String × JVal) × List String,
      (akeys acc.1).Nodup →
      (∀ k ∈ acc.2, k ∈ akeys acc.1) →
      (∀ k ∈ acc.2, k ∉ entries.map Prod.fst) →
      (entries.map Prod.fst).Nodup →
      ∀ r, convertPropsLoop env ptype pname entries acc = Except.ok r →
        (akeys r.1).Nodup ∧ ∀ k ∈ r.2, k ∈ akeys r.1 := by
  induction entries with
  | nil =>
    intro acc h1 h2 h3 h4 r hr
    unfold convertPropsLoop at hr
    injection hr with hh
    rw [← hh]
    exact ⟨h1, h2⟩
  | cons e rest ih =>
    intro acc h1 h2 h3 h4 r hr
    rw [List.map_cons, List.nodup_cons] at h4
    have hsec_aset : ∀ parsed : JVal,
        (∀ k ∈ acc.2 ++ [e.1], k ∈ akeys (aset acc.1 e.1 parsed)) := by
      intro parsed k hk
      rcases List.mem_append.mp hk with hk | hk
      · exact (mem_akeys_aset _ _ _ k).mpr (Or.inl (h2 k hk))
      · exact (mem_akeys_aset _ _ _ k).mpr (Or.inr (List.mem_singleton.mp hk))
    have hdisj_aset : ∀ k ∈ acc.2 ++ [e.1], k ∉ rest.map Prod.fst := by
      intro k hk
      rcases List.mem_append.mp hk with hk | hk
      · exact fun hh => h3 k hk (List.mem_cons_of_mem _ hh)
      · rw [List.mem_singleton.mp hk]
        exact h4.1
    have hsec_adel : ∀ k ∈ acc.2, k ∈ akeys (adel acc.1 e.1) := by
      intro k hk
      refine (mem_akeys_adel _ _ k).mpr ⟨h2 k hk, ?_⟩
      intro hh
      exact h3 k hk (by rw [hh]; exact List.mem_cons_self _ _)
    have hdisj_rest : ∀ k ∈ acc.2, k ∉ rest.map Prod.fst :=
      fun k hk hh => h3 k hk (List.mem_cons_of_mem _ hh)
    unfold convertPropsLoop at hr
    split at hr
    · exact Except.noConfusion hr
    · split at hr
      · split at hr
        · split at hr
          · exact Except.noConfusion hr
          · exact ih _ (nodup_akeys_aset _ _ _ h1) (hsec_aset _) hdisj_aset h4.2 r hr
        · exact ih (adel acc.1 e.1, acc.2) (nodup_akeys_adel _ _ h1) hsec_adel
            hdisj_rest h4.2 r hr
      · exact ih acc h1 h2 hdisj_rest h4.2 r hr

theorem processOneProfile_inv (env : ConvertEnv)
    (hread : ∀ t n props, env.readProfile t n = Except.ok props → (akeys props).Nodup)
    (t n : String) (r : List (String × JVal) × List String)
    (h : processOneProfile env t n = Except.ok r) :
    (akeys r.1).Nodup ∧ ∀ k ∈ r.2, k ∈ akeys r.1 := by
  unfold processOneProfile at h
  cases hrd : env.readProfile t n with
  | error e => rw [hrd] at h; exact Except.noConfusion h
  | ok props =>
    rw [hrd] at h
    exact convertPropsLoop_inv env t n props (props, []) (hread t n props hrd)
      (by simp) (by simp) (hread t n props hrd) r h

/-- The renamer keeps every secure name a key of the properties map. -/
theorem renameEntry_secure_sub (props : List (String × JVal)) (secure : List String)
    (hnd : (akeys props).Nodup) (hsub : ∀ k ∈ secure, k ∈ akeys props) :
    ∀ k ∈ renameSecure secure, k ∈ akeys (renameProps props) := by
  intro k hk
  unfold renameSecure at hk
  obtain ⟨s, hs, heq⟩ := List.mem_map.mp hk
  have hsk := hsub s hs
  cases hconv : convName s with
  | none =>
    rw [hconv] at heq
    simp only [Option.map_none', Option.getD_none] at heq
    rw [← heq]
    exact renameProps_preserves_other_keys props s hnd hconv hsk
  | some c =>
    rw [hconv] at heq
    simp only [Option.map_some', Option.getD_some] at heq
    obtain ⟨v, hv⟩ := alookup_eq_some_of_mem_akeys hsk
    have hc := convName_fst hconv
    have hcm : (s, c.2) ∈ nameConversions := by
      rw [← hc.1]
      exact hc.2
    have hnew := renameProps_lookup_new props s c.2 v hnd hcm hv
    rw [heq] at hnew
    rw [mem_akeys_iff, hnew]
    rfl

/-- The per-profile construction of `build` never puts a name in both the
properties map and the secure list. -/
theorem buildPropStep_fold_disjoint (populate : Bool) (schema : List (String × SchemaProp)) :
    ∀ acc : List (String × JVal) × List String,
      (schema.map Prod.fst).Nodup →
      (∀ k ∈ akeys acc.1, k ∉ schema.map Prod.fst) →
      (∀ k ∈ acc.2, k ∉ schema.map Prod.fst) →
      (∀ k, ¬(k ∈ akeys acc.1 ∧ k ∈ acc.2)) →
      ∀ k, ¬(k ∈ akeys (schema.foldl (buildPropStep populate) acc).1 ∧
             k ∈ (schema.foldl (buildPropStep populate) acc).2) := by
  induction schema with
  | nil => exact fun acc _ _ _ hdisj => hdisj
  | cons e rest ih =>
    intro acc hnd hp hs hdisj
    rw [List.map_cons, List.nodup_cons] at hnd
    rw [List.foldl_cons]
    unfold buildPropStep
    split
    · split
      · refine ih (acc.1, acc.2 ++ [e.1]) hnd.2 ?_ ?_ ?_
        · exact fun k hk hh => hp k hk (List.mem_cons_of_mem _ hh)
        · intro k hk
          rcases List.mem_append.mp hk with hk | hk
          · exact fun hh => hs k hk (List.mem_cons_of_mem _ hh)
          · rw [List.mem_singleton.mp hk]
            exact hnd.1
        · rintro k ⟨hk1, hk2⟩
          rcases List.mem_append.mp hk2 with hk2 | hk2
          · exact hdisj k ⟨hk1, hk2⟩
          · exact hp k hk1 (by rw [List.mem_singleton.mp hk2]; exact List.mem_cons_self _ _)
      · refine ih (aset acc.1 e.1 (e.2.defaultValue.getD (getDefaultValue e.2.type)), acc.2)
          hnd.2 ?_ ?_ ?_
        · intro k hk
          rcases (mem_akeys_aset _ _ _ k).mp hk with hk | hk
          · exact fun hh => hp k hk (List.mem_cons_of_mem _ hh)
          · rw [hk]
            exact hnd.1
        · exact fun k hk hh => hs k hk (List.mem_cons_of_mem _ hh)
        · rintro k ⟨hk1, hk2⟩
          rcases (mem_akeys_aset _ _ _ k).mp hk1 with hk1 | hk1
          · exact hdisj k ⟨hk1, hk2⟩
          · exact hs k hk2 (by rw [hk1]; exact List.mem_cons_self _ _)
    · refine ih acc hnd.2 (fun k hk hh => hp k hk (List.mem_cons_of_mem _ hh))
        (fun k hk hh => hs k hk (List.mem_cons_of_mem _ hh)) hdisj

theorem buildProfileEntry_disjoint (populate : Bool) (schema : List (String × SchemaProp))
    (hnd : (schema.map Prod.fst).Nodup) :
    ∀ k, ¬(k ∈ akeys (buildProfileEntry populate schema).1 ∧
           k ∈ (buildProfileEntry populate schema).2) := by
  unfold buildProfileEntry
  exact buildPropStep_fold_disjoint populate schema ([], []) hnd
    (by simp [akeys]) (by simp) (by simp [akeys])

theorem buildDecl_fold_profiles (pop : Bool) (decls : List ProfileDecl) :
    ∀ cfg : IConfig,
      (∀ e ∈ cfg.profiles, ∀ k, ¬(k ∈ akeys e.2.properties ∧ k ∈ e.2.secure)) →
      (∀ d ∈ decls, (d.schema.map Prod.fst).Nodup) →
      ∀ e ∈ (decls.foldl (buildDeclStep pop) cfg).profiles,
        ∀ k, ¬(k ∈ akeys e.2.properties ∧ k ∈ e.2.secure) := by
  induction decls with
  | nil => exact fun cfg h _ => h
  | cons d rest ih =>
    intro cfg hcfg hnd
    rw [List.foldl_cons]
    refine ih _ ?_ (fun d' hd' => hnd d' (List.mem_cons_of_mem _ hd'))
    intro e he k
    unfold buildDeclStep at he
    have hprofiles : e ∈ aset cfg.profiles d.type
        ⟨d.type, (buildProfileEntry pop d.schema).1, (buildProfileEntry pop d.schema).2⟩ := by
      split at he
      · exact he
      · exact he
    rcases mem_aset hprofiles with hold | hnew
    · exact hcfg e hold k
    · rw [hnew]
      exact buildProfileEntry_disjoint pop d.schema
        (hnd d (List.mem_cons_self d rest)) k

/-- One converted profile is well-formed: its secure names are keys of its
properties, with distinct keys. -/
def profOK (e : String × ConfigProfile) : Prop :=
  (∀ k ∈ e.2.secure, k ∈ akeys e.2.properties) ∧ (akeys e.2.properties).Nodup

theorem perProfileStep_profOK (env : ConvertEnv)
    (hread : ∀ t n props, env.readProfile t n = Except.ok props → (akeys props).Nodup)
    (t : String) (r : ConvertResult)
    (hr : ∀ e ∈ r.config.profiles, profOK e) (n : String) :
    ∀ e ∈ (perProfileStep env t r n).config.profiles, profOK e := by
  intro e he
  unfold perProfileStep at he
  cases hp : processOneProfile env t n with
  | error err =>
    rw [hp] at he
    exact hr e he
  | ok res =>
    rw [hp] at he
    dsimp only at he
    rcases mem_aset he with hold | hnew
    · exact hr e hold
    · rw [hnew]
      have hinv := processOneProfile_inv env hread t n res hp
      exact ⟨hinv.2, hinv.1⟩

theorem foldl_perProfileStep_profOK (env : ConvertEnv)
    (hread : ∀ t n props, env.readProfile t n = Except.ok props → (akeys props).Nodup)
    (t : String) (names : List String) :
    ∀ r : ConvertResult, (∀ e ∈ r.config.profiles, profOK e) →
      ∀ e ∈ (names.foldl (perProfileStep env t) r).config.profiles, profOK e := by
  induction names with
  | nil => exact fun r h => h
  | cons n rest ih =>
    intro r h
    rw [List.foldl_cons]
    exact ih _ (perProfileStep_profOK env hread t r h n)

theorem perTypeStep_profOK (env : ConvertEnv)
    (hread : ∀ t n props, env.readProfile t n = Except.ok props → (akeys props).Nodup)
    (r : ConvertResult) (hr : ∀ e ∈ r.config.profiles, profOK e) (t : String) :
    ∀ e ∈ (perTypeStep env r t).config.profiles, profOK e := by
  intro e he
  unfold perTypeStep at he
  by_cases hempty : (env.profileNames t).isEmpty
  · rw [if_pos hempty] at he
    exact hr e he
  · rw [if_neg hempty] at he
    have hinner := foldl_perProfileStep_profOK env hread t (env.profileNames t) r hr
    cases hm : env.readMeta t with
    | ok od =>
      cases od with
      | some d =>
        rw [hm] at he
        exact hinner e he
      | none =>
        rw [hm] at he
        exact hinner e he
    | error err =>
      rw [hm] at he
      exact hinner e he

theorem convert_pre_profOK (env : ConvertEnv)
    (hread : ∀ t n props, env.readProfile t n = Except.ok props → (akeys props).Nodup) :
    ∀ e ∈ (env.profileTypes.foldl (perTypeStep env)
        ⟨configEmpty, [], []⟩).config.profiles, profOK e := by
  have hgen : ∀ (types : List String) (r : ConvertResult),
      (∀ e ∈ r.config.profiles, profOK e) →
      ∀ e ∈ (types.foldl (perTypeStep env) r).config.profiles, profOK e := by
    intro types
    induction types with
    | nil => exact fun r h => h
    | cons t rest ih =>
      intro r h
      rw [List.foldl_cons]
      exact ih _ (perTypeStep_profOK env hread r h t)
  exact hgen env.profileTypes ⟨configEmpty, [], []⟩ (by simp [configEmpty])

/-- C1 (amended): in `build`'s output with no designated base profile no
name is simultaneously a key of a profile's `properties` and an entry of
its `secure` list; in `convert`'s output, by contrast, every entry of a
profile's `secure` list is also a key of its `properties` — in particular
a vault-resolved sentinel property ends up in both. -/
theorem c1_amended (impConfig : ImperativeConfig) (opts : ConfigBuilderOpts)
    (env : ConvertEnv)
    (hbase : impConfig.baseProfile = none)
    (hsch : ∀ d ∈ impConfig.profiles, (d.schema.map Prod.fst).Nodup)
    (hread : ∀ t n props, env.readProfile t n = Except.ok props → (akeys props).Nodup) :
    (∀ e ∈ (build impConfig opts).config.profiles, ∀ k,
      ¬(k ∈ akeys e.2.properties ∧ k ∈ e.2.secure))
    ∧ (∀ e ∈ (convert env).config.profiles, ∀ k ∈ e.2.secure, k ∈ akeys e.2.properties) := by
  constructor
  · obtain ⟨decls, base⟩ := impConfig
    simp only at hbase hsch
    subst hbase
    simp only [build]
    intro e he
    exact buildDecl_fold_profiles opts.populateProperties decls configEmpty
      (by simp [configEmpty]) hsch e he
  · intro e he
    unfold convert at he
    dsimp only at he
    unfold convertPropNames at he
    dsimp only at he
    obtain ⟨e0, he0, heq⟩ := List.mem_map.mp he
    have h0 := convert_pre_profOK env hread e0 he0
    rw [← heq]
    unfold renameProfileEntry
    dsimp only
    exact renameEntry_secure_sub e0.2.properties e0.2.secure h0.2 h0.1

/-- C1 witness. -/
theorem c1_amended_witness :
    "user" ∈ akeys [("user", JVal.vStr "secret"), ("host", JVal.vStr "h")] := by
  have hread : ∀ t n props, c1Env.readProfile t n = Except.ok props → (akeys props).Nodup := by
    intro t n props h
    unfold c1Env at h
    dsimp only at h
    split at h
    · injection h with hh
      rw [← hh]
      decide
    · exact Except.noConfusion h
  exact (c1_amended ⟨[], none⟩ ⟨false, none⟩ c1Env rfl (by simp) hread).2
    ("zosmf_lpar1", ⟨"zosmf", [("user", JVal.vStr "secret"), ("host", JVal.vStr "h")], ["user"]⟩)
    (by decide) "user" (by decide)

/-! ## Conversion failure-isolation lemmas (C7) -/

theorem perProfileStep_failed_mono (env : ConvertEnv) (t : String) (r : ConvertResult)
    (n : String) : ∀ x ∈ r.profilesFailed, x ∈ (perProfileStep env t r n).profilesFailed := by
  intro x hx
  unfold perProfileStep
  cases hp : processOneProfile env t n with
  | ok res => exact hx
  | error err => exact List.mem_append_left _ hx

theorem perProfileStep_defaults (env : ConvertEnv) (t : String) (r : ConvertResult)
    (n : String) : (perProfileStep env t r n).config.defaults = r.config.defaults := by
  unfold perProfileStep
  cases hp : processOneProfile env t n with
  | ok res => rfl
  | error err => rfl

theorem perProfileStep_conv_ne (env : ConvertEnv) (t : String) (r : ConvertResult)
    (n : String) (t0 : String) (hne : t0 ≠ t) :
    alookup (perProfileStep env t r n).profilesConverted t0 =
      alookup r.profilesConverted t0 := by
  unfold perProfileStep
  cases hp : processOneProfile env t n with
  | ok res => exact alookup_aset_ne _ _ hne
  | error err => rfl

theorem perProfileStep_conv_mono (env : ConvertEnv) (t : String) (r : ConvertResult)
    (n : String) (a : String) (h : a ∈ (alookup r.profilesConverted t).getD []) :
    a ∈ (alookup (perProfileStep env t r n).profilesConverted t).getD [] := by
  unfold perProfileStep
  cases hp : processOneProfile env t n with
  | ok res =>
    dsimp only
    rw [alookup_aset_self]
    exact List.mem_append_left _ h
  | error err => exact h

theorem perProfileStep_records_error (env : ConvertEnv) (t : String) (r : ConvertResult)
    (b : String) (e : String) (h : processOneProfile env t b = Except.error e) :
    FailedEntry.mk (some b) t e ∈ (perProfileStep env t r b).profilesFailed := by
  unfold perProfileStep
  rw [h]
  exact List.mem_append_right _ (List.mem_singleton.mpr rfl)

theorem perProfileStep_records_ok (env : ConvertEnv) (t : String) (r : ConvertResult)
    (a : String) (res : List (String × JVal) × List String)
    (h : processOneProfile env t a = Except.ok res) :
    a ∈ (alookup (perProfileStep env t r a).profilesConverted t).getD [] := by
  unfold perProfileStep
  rw [h]
  dsimp only
  rw [alookup_aset_self]
  exact List.mem_append_right _ (List.mem_singleton.mpr rfl)

theorem foldnames_failed_mono (env : ConvertEnv) (t : String) (names : List String) :
    ∀ r : ConvertResult, ∀ x ∈ r.profilesFailed,
      x ∈ (names.foldl (perProfileStep env t) r).profilesFailed := by
  induction names with
  | nil => exact fun r x hx => hx
  | cons n rest ih =>
    intro r x hx
    rw [List.foldl_cons]
    exact ih _ x (perProfileStep_failed_mono env t r n x hx)

theorem foldnames_defaults (env : ConvertEnv) (t : String) (names : List String) :
    ∀ r : ConvertResult,
      (names.foldl (perProfileStep env t) r).config.defaults = r.config.defaults := by
  induction names with
  | nil => exact fun r => rfl
  | cons n rest ih =>
    intro r
    rw [List.foldl_cons, ih, perProfileStep_defaults]

theorem foldnames_conv_ne (env : ConvertEnv) (t : String) (names : List String)
    (t0 : String) (hne : t0 ≠ t) :
    ∀ r : ConvertResult,
      alookup (names.foldl (perProfileStep env t) r).profilesConverted t0 =
        alookup r.profilesConverted t0 := by
  induction names with
  | nil => exact fun r => rfl
  | cons n rest ih =>
    intro r
    rw [List.foldl_cons, ih, perProfileStep_conv_ne env t r n t0 hne]

theorem foldnames_conv_mono (env : ConvertEnv) (t : String) (names : List String)
    (a : String) :
    ∀ r : ConvertResult, a ∈ (alookup r.profilesConverted t).getD [] →
      a ∈ (alookup (names.foldl (perProfileStep env t) r).profilesConverted t).getD [] := by
  induction names with
  | nil => exact fun r h => h
  | cons n rest ih =>
    intro r h
    rw [List.foldl_cons]
    exact ih _ (perProfileStep_conv_mono env t r n a h)

theorem perTypeStep_failed_mono (env : ConvertEnv) (r : ConvertResult) (t' : String) :
    ∀ x ∈ r.profilesFailed, x ∈ (perTypeStep env r t').profilesFailed := by
  intro x hx
  unfold perTypeStep
  by_cases hempty : (env.profileNames t').isEmpty
  · rw [if_pos hempty]
    exact hx
  · rw [if_neg hempty]
    have h1 := foldnames_failed_mono env t' (env.profileNames t') r x hx
    cases hm : env.readMeta t' with
    | ok od =>
      cases od with
      | some d => exact h1
      | none => exact h1
    | error err => exact List.mem_append_left _ h1

theorem perTypeStep_conv_ne (env : ConvertEnv) (r : ConvertResult) (t' t0 : String)
    (hne : t0 ≠ t') :
    alookup (perTypeStep env r t').profilesConverted t0 =
      alookup r.profilesConverted t0 := by
  unfold perTypeStep
  by_cases hempty : (env.profileNames t').isEmpty
  · rw [if_pos hempty]
  · rw [if_neg hempty]
    have h1 := foldnames_conv_ne env t' (env.profileNames t') t0 hne r
    cases hm : env.readMeta t' with
    | ok od =>
      cases od with
      | some d => exact h1
      | none => exact h1
    | error err => exact h1

theorem perTypeStep_defaults_ne (env : ConvertEnv) (r : ConvertResult) (t' t0 : String)
    (hne : t0 ≠ t') :
    alookup (perTypeStep env r t').config.defaults t0 =
      alookup r.config.defaults t0 := by
  unfold perTypeStep
  by_cases hempty : (env.profileNames t').isEmpty
  · rw [if_pos hempty]
  · rw [if_neg hempty]
    have h1 := foldnames_defaults env t' (env.profileNames t') r
    cases hm : env.readMeta t' with
    | ok od =>
      cases od with
      | some d =>
        dsimp only
        rw [alookup_aset_ne _ _ hne, h1]
      | none => rw [h1]
    | error err => rw [h1]

theorem perTypeStep_estab (env : ConvertEnv) (r : ConvertResult) (t : String)
    (hne : ¬(env.profileNames t).isEmpty) :
    (∀ b e, b ∈ env.profileNames t → processOneProfile env t b = Except.error e →
      FailedEntry.mk (some b) t e ∈ (perTypeStep env r t).profilesFailed)
    ∧ (∀ a res, a ∈ env.profileNames t → processOneProfile env t a = Except.ok res →
      a ∈ (alookup (perTypeStep env r t).profilesConverted t).getD [])
    ∧ (∀ d, env.readMeta t = Except.ok (some d) →
      alookup (perTypeStep env r t).config.defaults t = some (getProfileMapKey t d))
    ∧ (∀ e, env.readMeta t = Except.error e →
      FailedEntry.mk none t e ∈ (perTypeStep env r t).profilesFailed) := by
  refine ⟨?_, ?_, ?_, ?_⟩
  · intro b e hb hberr
    unfold perTypeStep
    rw [if_neg hne]
    obtain ⟨l1, l2, hsplit⟩ := List.append_of_mem hb
    have hmem : FailedEntry.mk (some b) t e ∈
        ((env.profileNames t).foldl (perProfileStep env t) r).profilesFailed := by
      rw [hsplit, List.foldl_append, List.foldl_cons]
      exact foldnames_failed_mono env t l2 _ _
        (perProfileStep_records_error env t _ b e hberr)
    cases hm : env.readMeta t with
    | ok od =>
      cases od with
      | some d => exact hmem
      | none => exact hmem
    | error err => exact List.mem_append_left _ hmem
  · intro a res ha haok
    unfold perTypeStep
    rw [if_neg hne]
    obtain ⟨l1, l2, hsplit⟩ := List.append_of_mem ha
    have hmem : a ∈ (alookup ((env.profileNames t).foldl (perProfileStep env t)
        r).profilesConverted t).getD [] := by
      rw [hsplit, List.foldl_append, List.foldl_cons]
      exact foldnames_conv_mono env t l2 a _
        (perProfileStep_records_ok env t _ a res haok)
    cases hm : env.readMeta t with
    | ok od =>
      cases od with
      | some d => exact hmem
      | none => exact hmem
    | error err => exact hmem
  · intro d hd
    unfold perTypeStep
    rw [if_neg hne, hd]
    dsimp only
    rw [alookup_aset_self]
  · intro e he
    unfold perTypeStep
    rw [if_neg hne, he]
    exact List.mem_append_right _ (List.mem_singleton.mpr rfl)

theorem foldtypes_failed_mono (env : ConvertEnv) (types : List String) :
    ∀ r : ConvertResult, ∀ x ∈ r.profilesFailed,
      x ∈ (types.foldl (perTypeStep env) r).profilesFailed := by
  induction types with
  | nil => exact fun r x hx => hx
  | cons t' rest ih =>
    intro r x hx
    rw [List.foldl_cons]
    exact ih _ x (perTypeStep_failed_mono env r t' x hx)

theorem foldtypes_conv_ne (env : ConvertEnv) (types : List String) (t0 : String)
    (hnotin : t0 ∉ types) :
    ∀ r : ConvertResult,
      alookup (types.foldl (perTypeStep env) r).profilesConverted t0 =
        alookup r.profilesConverted t0 := by
  induction types with
  | nil => exact fun r => rfl
  | cons t' rest ih =>
    intro r
    rw [List.mem_cons] at hnotin
    rw [List.foldl_cons, ih (fun h => hnotin (Or.inr h)),
        perTypeStep_conv_ne env r t' t0 (fun h => hnotin (Or.inl h))]

theorem foldtypes_defaults_ne (env : ConvertEnv) (types : List String) (t0 : String)
    (hnotin : t0 ∉ types) :
    ∀ r : ConvertResult,
      alookup (types.foldl (perTypeStep env) r).config.defaults t0 =
        alookup r.config.defaults t0 := by
  induction types with
  | nil => exact fun r => rfl
  | cons t' rest ih =>
    intro r
    rw [List.mem_cons] at hnotin
    rw [List.foldl_cons, ih (fun h => hnotin (Or.inr h)),
        perTypeStep_defaults_ne env r t' t0 (fun h => hnotin (Or.inl h))]

/-- The final renaming and autoStore step of `convert` leaves the failure
list, the converted-names map and the defaults untouched. -/
theorem convert_fields (env : ConvertEnv) :
    (convert env).profilesFailed =
      (env.profileTypes.foldl (perTypeStep env) ⟨configEmpty, [], []⟩).profilesFailed
    ∧ (convert env).profilesConverted =
      (env.profileTypes.foldl (perTypeStep env) ⟨configEmpty, [], []⟩).profilesConverted
    ∧ (convert env).config.defaults =
      (env.profileTypes.foldl (perTypeStep env) ⟨configEmpty, [], []⟩).config.defaults :=
  ⟨rfl, rfl, rfl⟩

/-- C7: a profile whose read/parse raises an error is recorded as a
`{name, type, error}` failure without aborting; every profile of the same
type that converts successfully still appears in `profilesConverted`; and
the per-type meta file is processed independently — its default-profile
reference is still recorded on success, and its own failure is recorded as
a `{type, error}` entry without a name. -/
theorem c7_convert_failure_isolation (env : ConvertEnv) (t : String)
    (ht : t ∈ env.profileTypes) (hnodup : env.profileTypes.Nodup) :
    (∀ b e, b ∈ env.profileNames t → processOneProfile env t b = Except.error e →
      FailedEntry.mk (some b) t e ∈ (convert env).profilesFailed)
    ∧ (∀ a res, a ∈ env.profileNames t → processOneProfile env t a = Except.ok res →
      a ∈ (alookup (convert env).profilesConverted t).getD [])
    ∧ ((env.profileNames t).isEmpty = false → ∀ d, env.readMeta t = Except.ok (some d) →
      alookup (convert env).config.defaults t = some (getProfileMapKey t d))
    ∧ ((env.profileNames t).isEmpty = false → ∀ e, env.readMeta t = Except.error e →
      FailedEntry.mk none t e ∈ (convert env).profilesFailed) := by
  obtain ⟨hf, hc, hdef⟩ := convert_fields env
  obtain ⟨l1, l2, hsplit⟩ := List.append_of_mem ht
  have hnotin2 : t ∉ l2 := by
    rw [hsplit] at hnodup
    have := hnodup.of_append_right
    rw [List.nodup_cons] at this
    exact this.1
  have hfold : env.profileTypes.foldl (perTypeStep env) ⟨configEmpty, [], []⟩ =
      l2.foldl (perTypeStep env)
        (perTypeStep env (l1.foldl (perTypeStep env) ⟨configEmpty, [], []⟩) t) := by
    rw [hsplit, List.foldl_append, List.foldl_cons]
  have hnonempty : ∀ b : String, b ∈ env.profileNames t → ¬(env.profileNames t).isEmpty := by
    intro b hb hempty
    rw [List.isEmpty_iff] at hempty
    rw [hempty] at hb
    exact absurd hb (List.not_mem_nil b)
  refine ⟨?_, ?_, ?_, ?_⟩
  · intro b e hb hberr
    rw [hf, hfold]
    exact foldtypes_failed_mono env l2 _ _
      ((perTypeStep_estab env _ t (hnonempty b hb)).1 b e hb hberr)
  · intro a res ha haok
    rw [hc, hfold, foldtypes_conv_ne env l2 t hnotin2]
    exact (perTypeStep_estab env _ t (hnonempty a ha)).2.1 a res ha haok
  · intro hne d hmd
    rw [hdef, hfold, foldtypes_defaults_ne env l2 t hnotin2]
    exact (perTypeStep_estab env _ t (by simp [hne])).2.2.1 d hmd
  · intro hne e he
    rw [hf, hfold]
    exact foldtypes_failed_mono env l2 _ _
      ((perTypeStep_estab env _ t (by simp [hne])).2.2.2 e he)

/-- A conversion environment with profiles "a" (readable) and "b"
(malformed) of type "fruit", for the C7 witness. -/
def c7Env : ConvertEnv :=
  { profileTypes := ["fruit"]
  , profileNames := fun t => if t = "fruit" then ["a", "b"] else []
  , readProfile := fun t n =>
      if t = "fruit" && n = "a" then Except.ok [("color", JVal.vStr "red")]
      else Except.error "bad yaml"
  , vaultLoad := fun _ _ _ => none
  , parseSecret := fun _ => Except.error "bad json"
  , readMeta := fun _ => Except.ok (some "a") }

/-- C7 witness. -/
theorem c7_convert_failure_isolation_witness :
    FailedEntry.mk (some "b") "fruit" "bad yaml" ∈ (convert c7Env).profilesFailed
    ∧ "a" ∈ (alookup (convert c7Env).profilesConverted "fruit").getD []
    ∧ alookup (convert c7Env).config.defaults "fruit" =
        some (getProfileMapKey "fruit" "a") := by
  have h := c7_convert_failure_isolation c7Env "fruit" (by decide) (by decide)
  exact ⟨h.1 "b" "bad yaml" (by decide) (by rfl),
         h.2.1 "a" ([("color", JVal.vStr "red")], []) (by decide) (by rfl),
         h.2.2.1 (by rfl) "a" rfl⟩
